import Mathlib

/-!
# Verification of the gl-buffer codec (fuzhenn/gl-buffer)

Shallow embedding of `src/gl-buffer-writer.js`, `src/gl-buffer-player.js`
and `src/common/misc.js`.  The repository's `src/common/util.js`,
`src/common/gl-types.js` and `src/common/gl-commands.js` are not part of the
delivered sources; the pieces of them that the claims need (the command type
registry, the GL type markers, the typed-array kind table and the
`GLrefCreators` set) are modelled from the spec and marked as such in their
doc comments.

Conventions of the embedding:
* a JS `ArrayBuffer` is a `List Nat` of bytes (each `< 256` when produced by
  the writer);
* `DataView.set*/get*` without an endianness flag is big-endian (the JS
  default), typed-array element access (`Uint16Array`, `Float32Array`, ...)
  is little-endian (the usual platform order) — the two sides of the codec
  use matching accessors, so round-trips do not depend on this choice;
* JS numbers holding `float32`/`float64` arguments are represented by their
  IEEE bit patterns (a `Nat` below `2^32` / `2^64`); `setFloatN`/`getFloatN`
  then act as the identity codec on patterns;
* fallible JS operations (out-of-range `DataView` reads, typed-array
  construction with a bad offset or length — all `RangeError`s) are modelled
  with `Except`, the error constructor `DecodeError.truncated` standing for
  the spec's `TruncatedBufferError`.
-/

set_option maxRecDepth 8192

/-- Equality of `Except` results is decidable when both components' is —
used to evaluate the embedded codec on concrete inputs. -/
instance {ε α : Type} [DecidableEq ε] [DecidableEq α] : DecidableEq (Except ε α) :=
  fun x y =>
    match x, y with
    | .error a, .error b =>
        if h : a = b then .isTrue (by rw [h])
        else .isFalse (fun hh => h (by injection hh))
    | .ok a, .ok b =>
        if h : a = b then .isTrue (by rw [h])
        else .isFalse (fun hh => h (by injection hh))
    | .error _, .ok _ => .isFalse (fun hh => by injection hh)
    | .ok _, .error _ => .isFalse (fun hh => by injection hh)

namespace GLBuffer

/-! ## Byte-level primitives -/

/-- Big-endian bytes of `n`, exactly `w` bytes (most significant first).
This is how a JS `DataView.setUintN`/`setIntN` without an endianness flag
lays out a value. -/
def natToBytesBE : Nat → Nat → List Nat
  | 0, _ => []
  | w + 1, n => natToBytesBE w (n / 256) ++ [n % 256]

/-- Recompose a big-endian byte list. -/
def bytesToNatBE (bs : List Nat) : Nat :=
  bs.foldl (fun acc b => acc * 256 + b) 0

/-- Little-endian bytes of `n`, exactly `w` bytes (least significant first).
This is how typed-array element stores lay out a value. -/
def natToBytesLE : Nat → Nat → List Nat
  | 0, _ => []
  | w + 1, n => n % 256 :: natToBytesLE w (n / 256)

/-- Recompose a little-endian byte list. -/
def bytesToNatLE : List Nat → Nat
  | [] => 0
  | b :: bs => b + 256 * bytesToNatLE bs

theorem natToBytesBE_length (w n : Nat) : (natToBytesBE w n).length = w := by
  induction w generalizing n with
  | zero => rfl
  | succ w ih => simp [natToBytesBE, ih]

theorem natToBytesLE_length (w n : Nat) : (natToBytesLE w n).length = w := by
  induction w generalizing n with
  | zero => rfl
  | succ w ih => simp [natToBytesLE, ih]

theorem bytesToNatBE_append_one (bs : List Nat) (b : Nat) :
    bytesToNatBE (bs ++ [b]) = bytesToNatBE bs * 256 + b := by
  simp [bytesToNatBE, List.foldl_append]

theorem mod_mul_decomp (n w : Nat) :
    n % (256 * 256 ^ w) = 256 * (n / 256 % 256 ^ w) + n % 256 := by
  have h1 : (n % (256 * 256 ^ w)) % 256 = n % 256 :=
    Nat.mod_mod_of_dvd n ⟨256 ^ w, rfl⟩
  have h2 : n % (256 * 256 ^ w) / 256 = n / 256 % 256 ^ w :=
    Nat.mod_mul_right_div_self n 256 (256 ^ w)
  have h3 := Nat.div_add_mod (n % (256 * 256 ^ w)) 256
  omega

theorem bytesToNatBE_natToBytesBE (w n : Nat) :
    bytesToNatBE (natToBytesBE w n) = n % 256 ^ w := by
  induction w generalizing n with
  | zero => simp [natToBytesBE, bytesToNatBE, Nat.mod_one]
  | succ w ih =>
      rw [natToBytesBE, bytesToNatBE_append_one, ih]
      have h := mod_mul_decomp n w
      have hpow : (256 : Nat) ^ (w + 1) = 256 * 256 ^ w := by ring
      rw [hpow]
      omega

theorem bytesToNatLE_natToBytesLE (w n : Nat) :
    bytesToNatLE (natToBytesLE w n) = n % 256 ^ w := by
  induction w generalizing n with
  | zero => simp [natToBytesLE, bytesToNatLE, Nat.mod_one]
  | succ w ih =>
      rw [natToBytesLE, bytesToNatLE, ih]
      have h := mod_mul_decomp n w
      have hpow : (256 : Nat) ^ (w + 1) = 256 * 256 ^ w := by ring
      rw [hpow]
      omega

/-- Reinterpret an unsigned `bits`-bit pattern as a signed (two's complement)
integer, as `DataView.getIntN` does. -/
def toSigned (bits : Nat) (n : Nat) : Int :=
  if n < 2 ^ (bits - 1) then (n : Int) else (n : Int) - 2 ^ bits

/-- The `bits`-bit pattern a `DataView.setIntN`/`setUintN` stores for the JS
number `v` (two's-complement wrap-around). -/
def intToPattern (bits : Nat) (v : Int) : Nat :=
  (v % (2 ^ bits : Int)).toNat

theorem intToPattern_lt (bits : Nat) (v : Int) :
    intToPattern bits v < 2 ^ bits := by
  unfold intToPattern
  have hpos : (0 : Int) < 2 ^ bits := by positivity
  have h1 := Int.emod_nonneg v (ne_of_gt hpos)
  have h2 := Int.emod_lt_of_pos v hpos
  have hcast : (((2 ^ bits : Nat) : Int)) = 2 ^ bits := by push_cast; ring
  omega

theorem toSigned_intToPattern_of_signed (bits : Nat) (v : Int)
    (hbits : 0 < bits)
    (hlo : -(2 ^ (bits - 1)) ≤ v) (hhi : v < 2 ^ (bits - 1)) :
    toSigned bits (intToPattern bits v) = v := by
  have hsplit : (2 : Int) ^ bits = 2 ^ (bits - 1) * 2 := by
    rw [← pow_succ]
    congr 1
    omega
  have hpos : (0 : Int) < 2 ^ bits := by positivity
  have hhalfpos : (0 : Int) < 2 ^ (bits - 1) := by positivity
  unfold toSigned intToPattern
  rcases le_or_lt 0 v with hv | hv
  · have hmod : v % (2 ^ bits : Int) = v := by
      apply Int.emod_eq_of_lt hv
      omega
    rw [hmod]
    have hvnat : ((v.toNat : Int)) = v := Int.toNat_of_nonneg hv
    have hlt : v.toNat < 2 ^ (bits - 1) := by
      have : ((2:Int) ^ (bits-1)) = ((2 ^ (bits-1) : Nat) : Int) := by push_cast; ring
      omega
    simp only [if_pos hlt]
    omega
  · have hmod : v % (2 ^ bits : Int) = v + 2 ^ bits := by
      have h1 : (v + 2 ^ bits * 1) % (2 ^ bits : Int) = v % (2 ^ bits : Int) :=
        Int.add_mul_emod_self_left v (2 ^ bits) 1
      have h2 : (v + 2 ^ bits * 1) % (2 ^ bits : Int) = v + 2 ^ bits := by
        rw [mul_one]
        apply Int.emod_eq_of_lt <;> omega
      rw [← h1, h2]
    rw [hmod]
    have hnonneg : (0 : Int) ≤ v + 2 ^ bits := by omega
    have hcast : (((v + 2 ^ bits).toNat : Int)) = v + 2 ^ bits :=
      Int.toNat_of_nonneg hnonneg
    have hge : ¬ ((v + 2 ^ bits).toNat < 2 ^ (bits - 1)) := by
      have : ((2:Int) ^ (bits-1)) = ((2 ^ (bits-1) : Nat) : Int) := by push_cast; ring
      omega
    simp only [if_neg hge]
    omega

theorem toSigned_intToPattern_of_unsigned (bits : Nat) (v : Int)
    (hlo : 0 ≤ v) (hhi : v < 2 ^ (bits - 1)) :
    toSigned bits (intToPattern bits v) = v := by
  have hhalfpos : (0 : Int) < 2 ^ (bits - 1) := by positivity
  have hle : (2 : Int) ^ (bits - 1) ≤ 2 ^ bits :=
    pow_le_pow_right₀ (by norm_num) (by omega)
  unfold toSigned intToPattern
  have hmod : v % (2 ^ bits : Int) = v := by
    apply Int.emod_eq_of_lt hlo
    omega
  rw [hmod]
  have hlt : v.toNat < 2 ^ (bits - 1) := by
    have : ((2:Int) ^ (bits-1)) = ((2 ^ (bits-1) : Nat) : Int) := by push_cast; ring
    omega
  simp only [if_pos hlt]
  omega

/-- Decode a stored `bits`-bit pattern the way the matching accessor reads it
back: signed accessors reinterpret in two's complement, unsigned (and float,
which we carry as bit patterns) return the pattern itself. -/
def decodePattern (bits : Nat) (sgn : Bool) (n : Nat) : Int :=
  match sgn with
  | true => toSigned bits n
  | false => (n : Int)

/-- The JS numbers a `bits`-bit store/load pair round-trips bit-exactly:
the value range of the corresponding (signed or unsigned) machine integer. -/
def validInt (bits : Nat) (sgn : Bool) (v : Int) : Bool :=
  match sgn with
  | true => decide (-(2 ^ (bits - 1)) ≤ v) && decide (v < 2 ^ (bits - 1))
  | false => decide (0 ≤ v) && decide (v < 2 ^ bits)

theorem decodePattern_intToPattern (bits : Nat) (sgn : Bool) (v : Int)
    (hb : 0 < bits) (h : validInt bits sgn v = true) :
    decodePattern bits sgn (intToPattern bits v) = v := by
  cases sgn with
  | true =>
      simp only [validInt, Bool.and_eq_true, decide_eq_true_eq] at h
      exact toSigned_intToPattern_of_signed bits v hb h.1 h.2
  | false =>
      simp only [validInt, Bool.and_eq_true, decide_eq_true_eq] at h
      obtain ⟨h0, h1⟩ := h
      show ((intToPattern bits v : Nat) : Int) = v
      unfold intToPattern
      have hmod : v % (2 ^ bits : Int) = v := by
        have hcast : ((2 ^ bits : Nat) : Int) = 2 ^ bits := by push_cast; ring
        apply Int.emod_eq_of_lt h0
        omega
      rw [hmod]
      exact Int.toNat_of_nonneg h0

theorem pow256_eq (w : Nat) : (256 : Nat) ^ w = 2 ^ (8 * w) := by
  rw [show (256 : Nat) = 2 ^ 8 from rfl, ← pow_mul]

/-! ## Scalar kinds

`Modelled from the spec:` §3 lists the closed set of scalar kinds
(int8/uint8/int16/uint16/int32/uint32/float32/float64); the type-marker
objects live in `src/common/gl-types.js`, which is not among the delivered
sources.  Each kind carries the byte width of its `DataView` accessor
(`setInt8` … `setFloat64`).  Float values are represented by their IEEE bit
patterns. -/

inductive ScalarKind
  | i8 | u8 | i16 | u16 | i32 | u32 | f32 | f64
  deriving DecidableEq, Repr

namespace ScalarKind

def width : ScalarKind → Nat
  | i8 => 1 | u8 => 1
  | i16 => 2 | u16 => 2
  | i32 => 4 | u32 => 4
  | f32 => 4 | f64 => 8

def sgn : ScalarKind → Bool
  | i8 => true | i16 => true | i32 => true
  | _ => false

def bits (k : ScalarKind) : Nat := 8 * k.width

theorem width_pos (k : ScalarKind) : 0 < k.width := by cases k <;> simp [width]

theorem bits_pos (k : ScalarKind) : 0 < k.bits := by
  have := k.width_pos
  unfold bits
  omega

end ScalarKind

/-- `DataView.set<kind>(pointer, v)` (big-endian, the JS default): the bytes
written for value `v`. -/
def encodeScalarBE (k : ScalarKind) (v : Int) : List Nat :=
  natToBytesBE k.width (intToPattern k.bits v)

/-- `DataView.get<kind>(pointer)` applied to those bytes. -/
def decodeScalarBE (k : ScalarKind) (bs : List Nat) : Int :=
  decodePattern k.bits k.sgn (bytesToNatBE bs)

def validScalar (k : ScalarKind) (v : Int) : Bool := validInt k.bits k.sgn v

theorem encodeScalarBE_length (k : ScalarKind) (v : Int) :
    (encodeScalarBE k v).length = k.width := natToBytesBE_length _ _

theorem decodeScalarBE_encodeScalarBE (k : ScalarKind) (v : Int)
    (h : validScalar k v = true) :
    decodeScalarBE k (encodeScalarBE k v) = v := by
  unfold decodeScalarBE encodeScalarBE
  rw [bytesToNatBE_natToBytesBE, pow256_eq]
  rw [Nat.mod_eq_of_lt (by simpa [ScalarKind.bits] using intToPattern_lt k.bits v)]
  exact decodePattern_intToPattern _ _ _ k.bits_pos h

/-! ## Typed-array kinds

`Modelled from the spec:` the `ArrayBufferTypes` table of
`src/common/gl-types.js` (not among the delivered sources) enumerates the JS
typed-array constructors, each with a small numeric tag (`num`) and its
`BYTES_PER_ELEMENT`; `src/common/util.js` (also missing) provides
`getTypeOfArray` / `getTypeOfArrayByNum` translating between a concrete array
and that tag.  The numbering below is one fixed bijective assignment; the
sources under `src/` only require that `getTypeOfArrayByNum` invert it.
Typed-array element stores are little-endian (platform order). -/

inductive ArrKind
  | ai8 | au8 | au8c | ai16 | au16 | ai32 | au32 | af32 | af64
  deriving DecidableEq, Repr

namespace ArrKind

def num : ArrKind → Nat
  | ai8 => 1 | au8 => 2 | au8c => 3
  | ai16 => 4 | au16 => 5
  | ai32 => 6 | au32 => 7
  | af32 => 8 | af64 => 9

/-- `BYTES_PER_ELEMENT` of the corresponding typed-array constructor. -/
def bpe : ArrKind → Nat
  | ai8 => 1 | au8 => 1 | au8c => 1
  | ai16 => 2 | au16 => 2
  | ai32 => 4 | au32 => 4
  | af32 => 4 | af64 => 8

def sgn : ArrKind → Bool
  | ai8 => true | ai16 => true | ai32 => true
  | _ => false

theorem bpe_pos (k : ArrKind) : 0 < k.bpe := by cases k <;> simp [bpe]

end ArrKind

/-- `getTypeOfArrayByNum` (from the missing `src/common/util.js`): tag to
typed-array kind; unknown tags yield `none` (JS would return `undefined` and
crash on the subsequent property access). -/
def getTypeOfArrayByNum (n : Nat) : Option ArrKind :=
  match n with
  | 1 => some .ai8 | 2 => some .au8 | 3 => some .au8c
  | 4 => some .ai16 | 5 => some .au16
  | 6 => some .ai32 | 7 => some .au32
  | 8 => some .af32 | 9 => some .af64
  | _ => none

theorem getTypeOfArrayByNum_num (k : ArrKind) :
    getTypeOfArrayByNum k.num = some k := by cases k <;> rfl

/-- One element store into a typed-array view (little-endian). -/
def encodeElemLE (k : ArrKind) (v : Int) : List Nat :=
  natToBytesLE k.bpe (intToPattern (8 * k.bpe) v)

/-- One element load from a typed-array view. -/
def decodeElemLE (k : ArrKind) (bs : List Nat) : Int :=
  decodePattern (8 * k.bpe) k.sgn (bytesToNatLE bs)

/-- Values a typed array of kind `k` can actually hold (its element range);
for `Uint8ClampedArray` stored values are likewise `0 ≤ v < 256`. -/
def validElem (k : ArrKind) (v : Int) : Bool := validInt (8 * k.bpe) k.sgn v

theorem encodeElemLE_length (k : ArrKind) (v : Int) :
    (encodeElemLE k v).length = k.bpe := natToBytesLE_length _ _

theorem decodeElemLE_encodeElemLE (k : ArrKind) (v : Int)
    (h : validElem k v = true) :
    decodeElemLE k (encodeElemLE k v) = v := by
  unfold decodeElemLE encodeElemLE
  rw [bytesToNatLE_natToBytesLE, pow256_eq]
  rw [Nat.mod_eq_of_lt (intToPattern_lt _ v)]
  have hb : 0 < 8 * k.bpe := by have := k.bpe_pos; omega
  exact decodePattern_intToPattern _ _ _ hb h

/-- `typedArray.set(value)`: the bytes an element list occupies in a typed
array of kind `k`. -/
def encodeElemsLE (k : ArrKind) (vs : List Int) : List Nat :=
  (vs.map (encodeElemLE k)).flatten

/-- Reading `count` elements of kind `k` from a byte slice, as
`new T(buffer, offset, count)` exposes them. -/
def decodeElemsLE (k : ArrKind) : Nat → List Nat → List Int
  | 0, _ => []
  | count + 1, bs => decodeElemLE k (bs.take k.bpe) :: decodeElemsLE k count (bs.drop k.bpe)

theorem encodeElemsLE_length (k : ArrKind) (vs : List Int) :
    (encodeElemsLE k vs).length = vs.length * k.bpe := by
  induction vs with
  | nil => simp [encodeElemsLE]
  | cons v vs ih =>
      show ((encodeElemLE k v) ++ encodeElemsLE k vs).length = (vs.length + 1) * k.bpe
      rw [List.length_append, encodeElemLE_length, ih]
      ring

theorem decodeElemsLE_encodeElemsLE (k : ArrKind) (vs : List Int)
    (h : ∀ v ∈ vs, validElem k v = true) :
    decodeElemsLE k vs.length (encodeElemsLE k vs) = vs := by
  induction vs with
  | nil => rfl
  | cons v vs ih =>
      have hlen : (encodeElemLE k v).length = k.bpe := encodeElemLE_length k v
      show decodeElemsLE k (vs.length + 1) (encodeElemLE k v ++ encodeElemsLE k vs) = v :: vs
      rw [decodeElemsLE, ← hlen, List.take_left, List.drop_left]
      rw [decodeElemLE_encodeElemLE k v (h v (List.mem_cons_self v vs))]
      rw [ih (fun x hx => h x (List.mem_cons_of_mem v hx))]

/-! ## Text encoding

`Modelled from the spec:` §4.3/§6 — the "best available text encoder (UTF-8
preferred)" is the platform's `TextEncoder`/`TextDecoder` pair, an external
collaborator.  A JS string is modelled as its list of UTF-16 code units
(each `< 0x10000`).  The UTF-8 model below is faithful for surrogate-free
strings (each unit encoded independently as 1–3 bytes); the decoder emits
U+FFFD on a truncated sequence, as `TextDecoder` does. -/

def utf8EncodeUnit (u : Nat) : List Nat :=
  if u < 0x80 then [u]
  else if u < 0x800 then [0xC0 + u / 64, 0x80 + u % 64]
  else [0xE0 + u / 4096, 0x80 + u / 64 % 64, 0x80 + u % 64]

def utf8Encode (units : List Nat) : List Nat :=
  (units.map utf8EncodeUnit).flatten

def utf8DecodeAux : Nat → List Nat → List Nat
  | 0, _ => []
  | _ + 1, [] => []
  | fuel + 1, b :: rest =>
    if b < 0x80 then b :: utf8DecodeAux fuel rest
    else if b < 0xE0 then
      if rest.length < 1 then [0xFFFD]
      else ((b - 0xC0) * 64 + (rest.headD 0 - 0x80)) :: utf8DecodeAux fuel rest.tail
    else
      if rest.length < 2 then [0xFFFD]
      else
        ((b - 0xE0) * 4096 + (rest.headD 0 - 0x80) * 64 + (rest.tail.headD 0 - 0x80)) ::
          utf8DecodeAux fuel rest.tail.tail

/-- The byte list is consumed left to right, at least one byte per produced
character, so its length bounds the recursion. -/
def utf8Decode (bs : List Nat) : List Nat := utf8DecodeAux bs.length bs

theorem utf8DecodeAux_congr :
    ∀ (fuel fuel' : Nat) (bs : List Nat), bs.length ≤ fuel → bs.length ≤ fuel' →
    utf8DecodeAux fuel bs = utf8DecodeAux fuel' bs := by
  intro fuel
  induction fuel with
  | zero =>
      intro fuel' bs h h'
      have hnil : bs = [] := by
        cases bs with
        | nil => rfl
        | cons b rest => simp at h
      subst hnil
      cases fuel' <;> rfl
  | succ fuel ih =>
      intro fuel' bs h h'
      cases bs with
      | nil => cases fuel' <;> rfl
      | cons b rest =>
          cases fuel' with
          | zero => simp at h'
          | succ fuel'' =>
              simp only [List.length_cons] at h h'
              rw [utf8DecodeAux, utf8DecodeAux]
              have hr : rest.length ≤ fuel := by omega
              have hr' : rest.length ≤ fuel'' := by omega
              have ht : rest.tail.length ≤ fuel := by
                have := List.length_tail rest
                omega
              have ht' : rest.tail.length ≤ fuel'' := by
                have := List.length_tail rest
                omega
              have htt : rest.tail.tail.length ≤ fuel := by
                have h1 := List.length_tail rest
                have h2 := List.length_tail rest.tail
                omega
              have htt' : rest.tail.tail.length ≤ fuel'' := by
                have h1 := List.length_tail rest
                have h2 := List.length_tail rest.tail
                omega
              rw [ih fuel'' rest hr hr', ih fuel'' rest.tail ht ht',
                ih fuel'' rest.tail.tail htt htt']

theorem utf8Decode_unit_cons (u : Nat) (hu : u < 0x10000) (rest : List Nat) :
    utf8Decode (utf8EncodeUnit u ++ rest) = u :: utf8Decode rest := by
  unfold utf8Decode utf8EncodeUnit
  by_cases h1 : u < 0x80
  · simp only [if_pos h1, List.cons_append, List.nil_append, List.length_cons]
    rw [utf8DecodeAux]
    simp only [if_pos h1]
  · by_cases h2 : u < 0x800
    · simp only [if_neg h1, if_pos h2, List.cons_append, List.nil_append,
        List.length_cons]
      rw [utf8DecodeAux]
      have hb1 : ¬ (0xC0 + u / 64 < 0x80) := by omega
      have hb2 : 0xC0 + u / 64 < 0xE0 := by omega
      have hb3 : ¬ (((0x80 + u % 64) :: rest).length < 1) := by simp
      simp only [if_neg hb1, if_pos hb2, if_neg hb3, List.headD_cons, List.tail_cons]
      rw [utf8DecodeAux_congr (rest.length + 1) rest.length rest (by omega) (le_refl _)]
      congr 1
      omega
    · simp only [if_neg h1, if_neg h2, List.cons_append, List.nil_append,
        List.length_cons]
      rw [utf8DecodeAux]
      have hb1 : ¬ (0xE0 + u / 4096 < 0x80) := by omega
      have hb2 : ¬ (0xE0 + u / 4096 < 0xE0) := by omega
      have hb3 : ¬ (((0x80 + u / 64 % 64) :: (0x80 + u % 64) :: rest).length < 2) := by
        simp
      simp only [if_neg hb1, if_neg hb2, if_neg hb3, List.headD_cons, List.tail_cons]
      rw [utf8DecodeAux_congr (rest.length + 1 + 1) rest.length rest (by omega)
        (le_refl _)]
      congr 1
      omega

theorem utf8Decode_utf8Encode (units : List Nat)
    (h : ∀ u ∈ units, u < 0x10000) :
    utf8Decode (utf8Encode units) = units := by
  induction units with
  | nil => rfl
  | cons u us ih =>
      show utf8Decode (utf8EncodeUnit u ++ utf8Encode us) = u :: us
      rw [utf8Decode_unit_cons u (h u (List.mem_cons_self u us))]
      rw [ih (fun x hx => h x (List.mem_cons_of_mem u hx))]

/-! ## GL types, descriptors and the command registry -/

/-- `Modelled from the spec:` §3's closed set of argument type markers; the
singleton marker objects (`GLref`, `GLstring`, ... of `src/common/gl-types.js`)
are not among the delivered sources.  Following §3: scalars carry their kind,
`Boolean` is stored as a 1-byte integer, `Ref` and `Location` are opaque
handle ids with the same 4-byte unsigned encoding. -/
inductive GLType
  | scalar (k : ScalarKind)
  | boolean
  | ref
  | location
  | arraybuffer
  | string
  | image
  deriving DecidableEq, Repr

namespace GLType

/-- The `DataView` accessor kind (`type.type` in JS) of a fixed-width marker.
Variable-width markers have no accessor; the value for them is never used. -/
def fixedKind : GLType → ScalarKind
  | scalar k => k
  | boolean => .u8
  | _ => .u32

/-- `type.bytesCount`.  In JS it is undefined on the variable-width markers
and always overwritten before use there; we use 0. -/
def bytesCount : GLType → Nat
  | scalar k => k.width
  | boolean => 1
  | ref => 4
  | location => 4
  | _ => 0

def isFixed : GLType → Bool
  | arraybuffer => false
  | string => false
  | image => false
  | _ => true

end GLType

/-- A command's return-type declaration: a single value or a homogeneous
list (spec §3: `returnType: none | Type | List(Type)`; the `Option` wrapper
plays the "none" role). -/
inductive RetType
  | single (t : GLType)
  | list (t : GLType)
  deriving DecidableEq, Repr

/-- `Modelled from the spec:` §3/§4.1 `CommandDescriptor` — the static
per-command metadata owned by the Registry (`src/common/gl-commands.js`,
not among the delivered sources). -/
structure CommandDesc where
  num : Nat
  name : String
  argTypes : List GLType
  returnType : Option RetType
  deriving DecidableEq, Repr

/-- `Modelled from the spec:` §4.1 the Command Type Registry, including the
`GLrefCreators` name set of `src/common/gl-commands.js` (commands that create
opaque handles, §2).  The writer/player code under `src/` consumes it only
through the lookups below. -/
structure Registry where
  descs : List CommandDesc
  refCreators : List String
  deriving Repr

/-- `getCommandTypes(name, ...args)` of the missing `src/common/util.js`:
lookup by command name (`none` models the `undefined` miss). -/
def Registry.byName (reg : Registry) (name : String) : Option CommandDesc :=
  reg.descs.find? (fun d => d.name == name)

/-- `getCommandTypesByNum(num)`: lookup by command code. -/
def Registry.byNum (reg : Registry) (num : Nat) : Option CommandDesc :=
  reg.descs.find? (fun d => d.num == num)

/-- `GLrefCreators[name]` truthiness test. -/
def Registry.isRefCreator (reg : Registry) (name : String) : Bool :=
  reg.refCreators.contains name

/-! ## Argument values and the tagging world -/

/-- A JS argument value as `addCommand` receives it.  Live objects are
identified by an abstract token; a float scalar is carried as its IEEE bit
pattern; a string as its UTF-16 code units; an `ImageData` by width, height
and its `data` bytes. -/
inductive GLValue
  | num (v : Int)
  | bool (b : Bool)
  | obj (tok : Nat)
  | arr (k : ArrKind) (elems : List Int)
  | str (units : List Nat)
  | img (w h : Nat) (data : List Nat)
  | objList (toks : List Nat)
  deriving DecidableEq, Repr

/-- The process-global state of `src/common/misc.js` and of the hidden
`GL_REF_KEY` property: `keys` maps an object token to the id stamped on the
object, `uid` is the module-level counter (`let uid = 1`).  This is global
state, shared by every writer in the process and untouched by `reset()`. -/
structure World where
  keys : List (Nat × Nat)
  uid : Nat
  deriving DecidableEq, Repr

def World.init : World := ⟨[], 1⟩

/-- `o[GL_REF_KEY]`: the id stamped on the object, if any. -/
def World.keyOf (g : World) (tok : Nat) : Option Nat :=
  (g.keys.find? (fun p => p.1 == tok)).map (·.2)

/-- `if (!o[GL_REF_KEY]) { const key = UID(); o[GL_REF_KEY] = key;
this.refMap[key] = o; }` for one object. -/
def tagObject (g : World) (refMap : List (Nat × Nat)) (tok : Nat) :
    World × List (Nat × Nat) :=
  match g.keyOf tok with
  | some _ => (g, refMap)
  | none => (⟨(tok, g.uid) :: g.keys, g.uid + 1⟩, (g.uid, tok) :: refMap)

/-- The `obj.forEach(o => ...)` loop over a list of created objects. -/
def tagObjects (g : World) (refMap : List (Nat × Nat)) (toks : List Nat) :
    World × List (Nat × Nat) :=
  toks.foldl (fun (acc : World × List (Nat × Nat)) tok => tagObject acc.1 acc.2 tok)
    (g, refMap)

/-! ## The writer (`src/gl-buffer-writer.js`)

The writer's environment flag `te` stands for
`typeof TextEncoder !== 'undefined'`. -/

structure GLBufferWriter where
  refPrefix : String
  debug : Bool
  commands : List Nat
  valueBuffers : List (List Nat)
  refMap : List (Nat × Nat)
  deriving DecidableEq, Repr

namespace GLBufferWriter

/-- `clearCommands()`. -/
def clearCommands (w : GLBufferWriter) : GLBufferWriter :=
  { w with commands := [], valueBuffers := [] }

/-- `reset()`. -/
def reset (w : GLBufferWriter) : GLBufferWriter :=
  { w.clearCommands with refMap := [] }

/-- `new GLBufferWriter(options)`: store the options and `reset()`.
`options.refPrefix` left undefined is the empty prefix (`getBuffer` emits
`this.refPrefix || ''`). -/
def init (refPrefix : String) (debug : Bool) : GLBufferWriter :=
  { refPrefix := refPrefix, debug := debug,
    commands := [], valueBuffers := [], refMap := [] }

end GLBufferWriter

/-- The `getBuffer()` snapshot `{ refPrefix, commands, values }`. -/
structure WireData where
  refPrefix : String
  commands : List Nat
  values : List (List Nat)
  deriving DecidableEq, Repr

def GLBufferWriter.getBuffer (w : GLBufferWriter) : WireData :=
  ⟨w.refPrefix, w.commands, w.valueBuffers⟩

/-- An entry of the writer's intermediate `bufferTypes` array: plain numbers,
or (on the `TextEncoder` path) the encoded string bytes, which
`_writeArgValues` later replaces by their byte length. -/
inductive BTEntry
  | n (v : Nat)
  | strBytes (bs : List Nat)
  deriving DecidableEq, Repr

/-- One argument of `_getBufferTypes` (the layout pass): the header entries
pushed into `bufferTypes` and the byte count the argument contributes to the
value-buffer size.  Mismatched type/value pairs (on which the JS would crash)
contribute the fixed default. -/
def layoutArg (te : Bool) (t : GLType) (v : GLValue) : List BTEntry × Nat :=
  match t, v with
  | .arraybuffer, .arr k elems =>
      let bytesCount := elems.length * k.bpe
      ([.n k.num, .n bytesCount], bytesCount)
  | .string, .str units =>
      if te then
        let bs := utf8Encode units
        ([.strBytes bs], bs.length)
      else
        ([.n (units.length * 2)], units.length * 2)
  | .image, .img w h data =>
      ([.n w, .n h], data.length)
  | t, _ => ([], t.bytesCount)

/-- The loop of `_getBufferTypes` over the declared argument types (a trailing
return pseudo-argument is not visited: the loop runs over `argTypes`). -/
def layoutArgs (te : Bool) : List GLType → List GLValue → List BTEntry × Nat
  | [], _ => ([], 0)
  | _ :: _, [] => ([], 0)
  | t :: ts, v :: vs =>
      let (e, n) := layoutArg te t v
      let (es, m) := layoutArgs te ts vs
      (e ++ es, n + m)

/-- The return-slot contribution to the value-buffer size
(`returnType.bytesCount`, or element size times `args[args.length-1].length`
for a list return). -/
def returnSize (rt : Option RetType) (lastArg : Option GLValue) : Nat :=
  match rt with
  | none => 0
  | some (.single t) => t.bytesCount
  | some (.list t) =>
      t.bytesCount * (match lastArg with
        | some (.objList toks) => toks.length
        | _ => 0)

/-- `_getBufferTypes(commandTypes, ...args)`: header entries and total
value-buffer size. -/
def getBufferTypes (te : Bool) (ct : CommandDesc) (args : List GLValue) :
    List BTEntry × Nat :=
  let (bufferTypes, size) := layoutArgs te ct.argTypes args
  (bufferTypes, size + returnSize ct.returnType args.getLast?)

/-- One argument of `_writeArgValues`: the bytes written at the current
pointer, the final header words this argument leaves in `bufferTypes`, and
the entries not yet consumed.  Notes on fidelity:
* a `Ref` argument serializes `value[GL_REF_KEY]`; when the object carries no
  id the JS stores `undefined`, which `setUint32` coerces to 0 — no fresh id
  is assigned here;
* on the `Image` branch `_writeBuffer` calls `arr.set(value)` where `value`
  is the `ImageData` object itself, which has no `length` property, so
  nothing is copied and the freshly allocated (zero-filled) bytes remain;
* on the array branch the view kind comes from the header entry
  (`bufferTypes[btPointer]`), mirrored here through `getTypeOfArrayByNum`. -/
def writeArg (te : Bool) (g : World) (t : GLType) (v : GLValue)
    (entries : List BTEntry) : List Nat × List Nat × List BTEntry :=
  match t, v with
  | .arraybuffer, .arr _ elems =>
      match entries with
      | .n tnum :: .n bytes :: rest =>
          let chunk := match getTypeOfArrayByNum tnum with
            | some k' => encodeElemsLE k' elems
            | none => []
          (chunk, [tnum, bytes], rest)
      | _ => ([], [], entries)
  | .string, .str units =>
      if te then
        match entries with
        | .strBytes bs :: rest => (bs, [bs.length], rest)
        | _ => ([], [], entries)
      else
        match entries with
        | .n bytes :: rest =>
            ((units.map (natToBytesLE 2)).flatten, [bytes], rest)
        | _ => ([], [], entries)
  | .image, .img _ _ _ =>
      match entries with
      | .n w :: .n h :: rest => (List.replicate (w * h * 4) 0, [w, h], rest)
      | _ => ([], [], entries)
  | .ref, .obj tok =>
      (encodeScalarBE .u32 (((g.keyOf tok).getD 0 : Nat) : Int), [], entries)
  | .boolean, .bool b =>
      (encodeScalarBE .u8 (if b then 1 else 0), [], entries)
  | t, .num n => (encodeScalarBE t.fixedKind n, [], entries)
  | _, _ => ([], [], entries)

/-- The loop of `_writeArgValues` over the declared argument types. -/
def writeArgs (te : Bool) (g : World) :
    List GLType → List GLValue → List BTEntry → List Nat × List Nat
  | [], _, _ => ([], [])
  | _ :: _, [], _ => ([], [])
  | t :: ts, v :: vs, entries =>
      let (chunk, words, rest) := writeArg te g t v entries
      let (chunks, wordsRest) := writeArgs te g ts vs rest
      (chunk ++ chunks, words ++ wordsRest)

/-- The trailing return slot of `_writeArgValues`: the pre-assigned id(s) of
the anticipated result (for type `Ref` the object's `GL_REF_KEY`, otherwise
the value itself), written with the return type's accessor. -/
def writeReturnSlot (g : World) (rt : Option RetType) (lastArg : Option GLValue) :
    List Nat :=
  match rt, lastArg with
  | none, _ => []
  | some (.single t), some v =>
      let x : Int := match t, v with
        | .ref, .obj tok => ((g.keyOf tok).getD 0 : Nat)
        | _, .num n => n
        | _, _ => 0
      encodeScalarBE t.fixedKind x
  | some (.list t), some (.objList toks) =>
      (toks.map (fun tok =>
        encodeScalarBE t.fixedKind (((g.keyOf tok).getD 0 : Nat) : Int))).flatten
  | some _, _ => []

/-- The `GLrefCreators` block at the top of `_saveCommand`: stamp a fresh id
on the trailing created object(s) that carry none — the only place ids are
allocated.  (A ref-creator's trailing argument is the created object or the
array of created objects; other shapes leave the state unchanged, where the
JS would stamp nothing on a primitive.) -/
def refCreatorTag (reg : Registry) (g : World) (refMap : List (Nat × Nat))
    (name : String) (lastArg : Option GLValue) : World × List (Nat × Nat) :=
  if reg.isRefCreator name then
    match lastArg with
    | some (.objList toks) => tagObjects g refMap toks
    | some (.obj tok) => tagObject g refMap tok
    | _ => (g, refMap)
  else (g, refMap)

/-- `_saveCommand(commandTypes, name, ...args)`:
1. the `GLrefCreators` tagging (`refCreatorTag`);
2. layout pass, write pass, command-stream write, value-buffer push. -/
def saveCommand (te : Bool) (reg : Registry) (g : World) (w : GLBufferWriter)
    (ct : CommandDesc) (name : String) (args : List GLValue) :
    GLBufferWriter × World :=
  let tag := refCreatorTag reg g w.refMap name args.getLast?
  let bufferTypes := (getBufferTypes te ct args).1
  let cw := writeArgs te tag.1 ct.argTypes args bufferTypes
  let buffer := cw.1 ++ writeReturnSlot tag.1 ct.returnType args.getLast?
  ({ w with
      commands := w.commands ++ ct.num :: cw.2,
      valueBuffers := w.valueBuffers ++ [buffer],
      refMap := tag.2 }, tag.1)

inductive WriterError
  | argumentCount
  deriving DecidableEq, Repr

/-- `addCommand(name, ...args)`: unknown name → dropped (optionally logged),
state untouched; known name with wrong arity → `ArgumentCountError` (the
thrown `Error` leaves the writer unmodified); otherwise commit. -/
def GLBufferWriter.addCommand (te : Bool) (reg : Registry) (g : World)
    (w : GLBufferWriter) (name : String) (args : List GLValue) :
    Except WriterError (GLBufferWriter × World) :=
  match reg.byName name with
  | none => .ok (w, g)
  | some ct =>
      let l := ct.argTypes.length + (if ct.returnType.isSome then 1 else 0)
      if l ≠ args.length then .error .argumentCount
      else .ok (saveCommand te reg g w ct name args)

/-! ## The player (`src/gl-buffer-player.js`)

The flag `td` stands for `typeof TextDecoder !== 'undefined'`. -/

/-- A decoded argument value as `_readCommand` pushes it: scalars as numbers
(floats as bit patterns), booleans via `!!v`, `Ref`/`Location` as the string
`refPrefix + id`, arrays/strings/images structurally. -/
inductive PlayVal
  | num (v : Int)
  | bool (b : Bool)
  | refId (s : String)
  | arr (k : ArrKind) (elems : List Int)
  | str (units : List Nat)
  | img (w h : Nat) (data : List Nat)
  deriving DecidableEq, Repr

/-- The `ref` field of a decoded record: `0`, one id string, or a list. -/
inductive RefVal
  | zero
  | one (s : String)
  | many (l : List String)
  deriving DecidableEq, Repr

structure CommandRecord where
  name : String
  types : List GLType
  args : List PlayVal
  ref : RefVal
  deriving DecidableEq, Repr

/-- Decode failures.  `truncated` models every `RangeError` of the decode
path (a `DataView` read or typed-array view that would pass the end of the
value buffer, or a typed-array byte offset not divisible by the element
size) — the spec's `TruncatedBufferError`.  `unknownCommand` models the
`TypeError`s that follow an `undefined` registry/type-table lookup. -/
inductive DecodeError
  | truncated
  | unknownCommand
  deriving DecidableEq, Repr

/-- A bounds-checked byte slice `[off, off+n)` of the value buffer: exactly
the window a `DataView` read or typed-array view of that extent touches;
past-the-end access is a `RangeError`. -/
def readSlice (bs : List Nat) (off n : Nat) : Except DecodeError (List Nat) :=
  if off + n ≤ bs.length then .ok ((bs.drop off).take n) else .error .truncated

/-- `comBuffer[cPt]`.  Reading past a `Uint32Array` yields `undefined` in JS
and every subsequent use of it crashes with a `TypeError`; modelled as an
immediate error. -/
def wordAt (ws : List Nat) (i : Nat) : Except DecodeError Nat :=
  match ws[i]? with
  | some w => .ok w
  | none => .error .unknownCommand

/-- `_readString(pt, values, bytesCount)`.  The no-`TextDecoder` path builds
`new Uint16Array(buffer, pt, bytesCount / 2)`: per the `ToIndex` coercion a
fractional length is truncated — not an error — so the view spans only
`2 * (bytesCount / 2)` bytes; a byte offset `pt` not divisible by 2 raises a
`RangeError`. -/
def readStringVal (td : Bool) (buf : List Nat) (vPt bytes : Nat) :
    Except DecodeError (List Nat) :=
  if td then
    match readSlice buf vPt bytes with
    | .error e => .error e
    | .ok sl => .ok (utf8Decode sl)
  else
    if vPt % 2 ≠ 0 then .error .truncated
    else
      match readSlice buf vPt (2 * (bytes / 2)) with
      | .error e => .error e
      | .ok sl => .ok (readUtf16LE (bytes / 2) sl)
where
  readUtf16LE : Nat → List Nat → List Nat
    | 0, _ => []
    | n + 1, bs => bytesToNatLE (bs.take 2) :: readUtf16LE n (bs.drop 2)

/-- The argument loop of `_readCommand`: walks the declared types, reading
header words from the command stream at `cPt` and value bytes at `vPt`;
returns the decoded arguments and the final positions. -/
def readArgs (td : Bool) (refPrefix : String) (ws : List Nat) (buf : List Nat) :
    List GLType → Nat → Nat → Except DecodeError (List PlayVal × Nat × Nat)
  | [], cPt, vPt => .ok ([], cPt, vPt)
  | t :: ts, cPt, vPt =>
    match t with
    | .arraybuffer =>
        match wordAt ws cPt with
        | .error e => .error e
        | .ok tnum =>
          match getTypeOfArrayByNum tnum with
          | none => .error .unknownCommand
          | some k =>
            match wordAt ws (cPt + 1) with
            | .error e => .error e
            | .ok bytes =>
              -- new T(buffer, vPt, bytes / BPE): per ToIndex a fractional
              -- length is truncated, so the view spans k.bpe * (bytes / BPE)
              -- bytes; a byte offset not divisible by BPE is a RangeError;
              -- vPt still advances by the raw header byte count below
              if vPt % k.bpe ≠ 0 then .error .truncated
              else
                match readSlice buf vPt (k.bpe * (bytes / k.bpe)) with
                | .error e => .error e
                | .ok sl =>
                  match readArgs td refPrefix ws buf ts (cPt + 2) (vPt + bytes) with
                  | .error e => .error e
                  | .ok (vs, cPt', vPt') =>
                      .ok (.arr k (decodeElemsLE k (bytes / k.bpe) sl) :: vs, cPt', vPt')
    | .string =>
        match wordAt ws cPt with
        | .error e => .error e
        | .ok bytes =>
          match readStringVal td buf vPt bytes with
          | .error e => .error e
          | .ok units =>
            match readArgs td refPrefix ws buf ts (cPt + 1) (vPt + bytes) with
            | .error e => .error e
            | .ok (vs, cPt', vPt') => .ok (.str units :: vs, cPt', vPt')
    | .image =>
        match wordAt ws cPt with
        | .error e => .error e
        | .ok w =>
          match wordAt ws (cPt + 1) with
          | .error e => .error e
          | .ok h =>
            match readSlice buf vPt (w * h * 4) with
            | .error e => .error e
            | .ok sl =>
              match readArgs td refPrefix ws buf ts (cPt + 2) (vPt + w * h * 4) with
              | .error e => .error e
              | .ok (vs, cPt', vPt') => .ok (.img w h sl :: vs, cPt', vPt')
    | t =>
        -- common values: a DataView read of the fixed width at vPt
        match readSlice buf vPt t.bytesCount with
        | .error e => .error e
        | .ok sl =>
          let raw := decodeScalarBE t.fixedKind sl
          let v : PlayVal := match t with
            | .boolean => .bool (raw ≠ 0)
            | .ref => .refId (refPrefix ++ toString raw)
            | .location => .refId (refPrefix ++ toString raw)
            | _ => .num raw
          match readArgs td refPrefix ws buf ts cPt (vPt + t.bytesCount) with
          | .error e => .error e
          | .ok (vs, cPt', vPt') => .ok (v :: vs, cPt', vPt')

/-- The `while (vPt < values.buffer.byteLength)` loop reading a list return:
one id per element until the end of the buffer.  A zero-width element type
would never advance (the JS loop would not terminate); the registry's return
types are `Ref` (4 bytes). -/
def readReturnList (refPrefix : String) (buf : List Nat) (t : GLType) (vPt : Nat) :
    Except DecodeError (List String × Nat) :=
  if _h : vPt < buf.length then
    if _hbc : t.bytesCount = 0 then .error .unknownCommand
    else
      match readSlice buf vPt t.bytesCount with
      | .error e => .error e
      | .ok sl =>
        match readReturnList refPrefix buf t (vPt + t.bytesCount) with
        | .error e => .error e
        | .ok (rest, vPt') =>
            .ok ((refPrefix ++ toString (decodeScalarBE t.fixedKind sl)) :: rest, vPt')
  else .ok ([], vPt)
termination_by buf.length - vPt
decreasing_by simp_wf; omega

/-- The return-slot read at the end of `_readCommand` (`ref = 0` when no
return type is declared; note the JS prefixes the decoded value with
`refPrefix` whatever the return type is). -/
def readReturn (refPrefix : String) (buf : List Nat) (rt : Option RetType)
    (vPt : Nat) : Except DecodeError (RefVal × Nat) :=
  match rt with
  | none => .ok (.zero, vPt)
  | some (.single t) =>
      match readSlice buf vPt t.bytesCount with
      | .error e => .error e
      | .ok sl =>
          .ok (.one (refPrefix ++ toString (decodeScalarBE t.fixedKind sl)),
               vPt + t.bytesCount)
  | some (.list t) =>
      match readReturnList refPrefix buf t vPt with
      | .error e => .error e
      | .ok (ids, vPt') => .ok (.many ids, vPt')

/-- `_readCommand(cPt, comBuffer, values, refPrefix)`. -/
def readCommand (td : Bool) (reg : Registry) (ws : List Nat) (cPt : Nat)
    (buf : List Nat) (refPrefix : String) :
    Except DecodeError (CommandRecord × Nat) :=
  match wordAt ws cPt with
  | .error e => .error e
  | .ok commandNum =>
    match reg.byNum commandNum with
    | none => .error .unknownCommand
    | some ct =>
      match readArgs td refPrefix ws buf ct.argTypes (cPt + 1) 0 with
      | .error e => .error e
      | .ok (args, cPt', vPt') =>
        match readReturn refPrefix buf ct.returnType vPt' with
        | .error e => .error e
        | .ok (ref, _) =>
            .ok ({ name := ct.name, types := ct.argTypes, args := args, ref := ref },
                 cPt')

structure GLBufferPlayer where
  commands : List CommandRecord
  refMap : List (String × Nat)
  deriving DecidableEq, Repr

namespace GLBufferPlayer

/-- `new GLBufferPlayer()`. -/
def init : GLBufferPlayer := ⟨[], []⟩

def getCommands (p : GLBufferPlayer) : List CommandRecord := p.commands

def clearCommands (p : GLBufferPlayer) : GLBufferPlayer :=
  { p with commands := [] }

def reset (p : GLBufferPlayer) : GLBufferPlayer :=
  { p.clearCommands with refMap := [] }

end GLBufferPlayer

/-- The `while (cPt < commands.length)` loop of `_parse`: one value buffer
per decoded command.  Each decoded record is pushed before the next
iteration, so an error keeps the records decoded so far (second component);
running out of value buffers while words remain is the
`new DataView(undefined)` `TypeError`. -/
def parseLoop (td : Bool) (reg : Registry) (ws : List Nat) (refPrefix : String) :
    Nat → List (List Nat) → List CommandRecord × Option DecodeError
  | cPt, [] =>
      if cPt < ws.length then ([], some .unknownCommand) else ([], none)
  | cPt, vb :: rest =>
      if cPt < ws.length then
        match readCommand td reg ws cPt vb refPrefix with
        | .error e => ([], some e)
        | .ok (c, cPt') =>
            let (cs, err) := parseLoop td reg ws refPrefix cPt' rest
            (c :: cs, err)
      else ([], none)

/-- `addBuffer(data)` (via `_parse`): append the decoded records; an error
mid-way keeps the earlier records (faithful to the mutating `push`). -/
def GLBufferPlayer.addBuffer (td : Bool) (reg : Registry) (p : GLBufferPlayer)
    (data : WireData) : GLBufferPlayer × Option DecodeError :=
  let r := parseLoop td reg data.commands data.refPrefix 0 data.values
  ({ p with commands := p.commands ++ r.1 }, r.2)

/-- A resolved argument as `_prepareArgs` builds it: `Ref`/`Location` ids are
looked up in the player's `refMap` (`missing` models the `undefined` miss),
other values pass through. -/
inductive RVal
  | v (x : PlayVal)
  | res (r : Nat)
  | missing
  deriving DecidableEq, Repr

def GLBufferPlayer.prepareArgs (p : GLBufferPlayer) (c : CommandRecord) :
    List RVal :=
  go c.types c.args
where
  go : List GLType → List PlayVal → List RVal
    | [], _ => []
    | _ :: _, [] => []
    | t :: ts, a :: as_ =>
        (match t, a with
          | .ref, .refId s | .location, .refId s =>
              match p.refMap.find? (fun q => q.1 == s) with
              | some q => .res q.2
              | none => .missing
          | _, _ => .v a) :: go ts as_

inductive PlayError
  | typeErrorUndefined
  deriving DecidableEq, Repr

/-- `playback(gl, step)`.  The very first statement of the per-record
callback is `const name = c.name, ref = c.command.ref;` — but `_parse`
pushed the *inner* command objects, which have fields
`{name, types, args, ref}` and no `command` field, so `c.command` is
`undefined` and `.ref` on it throws a `TypeError` before anything is
executed.  `playback` therefore succeeds only on an empty command list and
in either case never modifies `commands`. -/
def GLBufferPlayer.playback (p : GLBufferPlayer)
    (_gl : String → List RVal → Nat)
    (_step : Option (String → List RVal → List RVal)) :
    Except PlayError GLBufferPlayer :=
  match p.commands with
  | [] => .ok p
  | _ :: _ => .error .typeErrorUndefined

/-! ## Validity of arguments

`validArg te g t v` says the concrete value `v` is a well-formed JS argument
for declared type `t`: the shapes agree (otherwise the JS writer would crash
or corrupt), machine values are in the range their accessor round-trips,
typed-array elements are in their element range (guaranteed for values read
out of a real typed array), strings are lists of UTF-16 code units
(surrogate-free when the UTF-8 `TextEncoder` is in use, where our model of it
is exact), an `ImageData`'s `data` has `width*height*4` bytes (the `ImageData`
class invariant), and a `Ref` object's stamped id, if any, fits 32 bits. -/

def validArg (te : Bool) (g : World) : GLType → GLValue → Bool
  | .scalar k, .num v => validScalar k v
  | .boolean, .bool _ => true
  | .ref, .obj tok => decide ((g.keyOf tok).getD 0 < 2 ^ 32)
  | .location, .num v => validScalar .u32 v
  | .arraybuffer, .arr k elems => elems.all (validElem k)
  | .string, .str units =>
      units.all (fun u => decide (u < 0x10000) &&
        (!te || !(decide (0xD800 ≤ u) && decide (u < 0xE000))))
  | .image, .img w h data => data.length == w * h * 4 && data.all (· < 256)
  | _, _ => false

/-- Arguments valid position-wise against the declared types (a trailing
return pseudo-argument beyond `types` is not constrained here). -/
def validArgs (te : Bool) (g : World) : List GLType → List GLValue → Bool
  | [], _ => true
  | _ :: _, [] => false
  | t :: ts, v :: vs => validArg te g t v && validArgs te g ts vs

/-- The value `_readCommand` reconstructs for one argument (given the world
`g` in force during the write pass).  `Ref`/`Location` decode to the
prefixed id string; an image decodes to a zero pixel buffer of the recorded
dimensions (see `writeArg`). -/
def expectedVal (pfx : String) (g : World) : GLType → GLValue → PlayVal
  | .scalar _, .num v => .num v
  | .boolean, .bool b => .bool b
  | .ref, .obj tok => .refId (pfx ++ toString ((((g.keyOf tok).getD 0 : Nat)) : Int))
  | .location, .num v => .refId (pfx ++ toString v)
  | .arraybuffer, .arr k elems => .arr k elems
  | .string, .str units => .str units
  | .image, .img w h _ => .img w h (List.replicate (w * h * 4) 0)
  | _, _ => .num 0

def expectedVals (pfx : String) (g : World) :
    List GLType → List GLValue → List PlayVal
  | [], _ => []
  | _ :: _, [] => []
  | t :: ts, v :: vs => expectedVal pfx g t v :: expectedVals pfx g ts vs

/-! ## Positioning lemmas -/

theorem wordAt_append_cons (pre : List Nat) (x : Nat) (rest : List Nat) :
    wordAt (pre ++ x :: rest) pre.length = .ok x := by
  unfold wordAt
  rw [List.getElem?_append_right (le_refl pre.length)]
  simp

theorem readSlice_append (pre mid suf : List Nat) :
    readSlice (pre ++ (mid ++ suf)) pre.length mid.length = .ok mid := by
  unfold readSlice
  rw [if_pos (by simp only [List.length_append]; omega)]
  rw [List.drop_left, List.take_left]

/-! ## Lockstep widths

The per-position byte widths, computed the decoder's way (from the header
words in the command-code stream, starting at `cPt`) — exactly the
`bytesCount` values by which `_readCommand` advances `vPt` — and the
encoder's way (the layout pass of `_getBufferTypes`). -/

def decArgWidths (ws : List Nat) : List GLType → Nat → Option (List Nat)
  | [], _ => some []
  | t :: ts, cPt =>
    match t with
    | .arraybuffer =>
        match ws[cPt]? with
        | none => none
        | some tnum =>
          match getTypeOfArrayByNum tnum with
          | none => none
          | some _ =>
            match ws[cPt + 1]? with
            | none => none
            | some bytes =>
              match decArgWidths ws ts (cPt + 2) with
              | none => none
              | some rest => some (bytes :: rest)
    | .string =>
        match ws[cPt]? with
        | none => none
        | some bytes =>
          match decArgWidths ws ts (cPt + 1) with
          | none => none
          | some rest => some (bytes :: rest)
    | .image =>
        match ws[cPt]? with
        | none => none
        | some w =>
          match ws[cPt + 1]? with
          | none => none
          | some h =>
            match decArgWidths ws ts (cPt + 2) with
            | none => none
            | some rest => some (w * h * 4 :: rest)
    | t =>
        match decArgWidths ws ts cPt with
        | none => none
        | some rest => some (t.bytesCount :: rest)

/-- The encoder's layout-pass widths, position by position. -/
def encArgWidths (te : Bool) : List GLType → List GLValue → List Nat
  | [], _ => []
  | _ :: _, [] => []
  | t :: ts, v :: vs => (layoutArg te t v).2 :: encArgWidths te ts vs

/-- Byte alignment of the decoder's multi-byte typed-array views over the
writer's layout: `new TypedArray(buffer, byteOffset, length)` demands
`byteOffset % BYTES_PER_ELEMENT == 0`, and the writer packs arguments
back-to-back with no padding, so such a view decodes only when the widths of
the preceding arguments leave its start offset aligned.  (`Uint8Array`
paths — UTF-8 strings, pixel buffers, byte arrays — are always aligned.) -/
def alignedArgs (te : Bool) : List GLType → List GLValue → Nat → Bool
  | [], _, _ => true
  | _ :: _, [], _ => true
  | t :: ts, v :: vs, vPt =>
    (match t, v with
     | .arraybuffer, .arr k _ => vPt % k.bpe == 0
     | .string, _ => te || (vPt % 2 == 0)
     | _, _ => true)
    && alignedArgs te ts vs (vPt + (layoutArg te t v).2)

theorem wordAt_mid (pre mid suf : List Nat) (i : Nat) (h : i < mid.length) :
    wordAt (pre ++ mid ++ suf) (pre.length + i) = .ok mid[i] := by
  unfold wordAt
  rw [List.append_assoc]
  rw [List.getElem?_append_right (by omega)]
  have : pre.length + i - pre.length = i := by omega
  rw [this]
  rw [List.getElem?_append, if_pos h, List.getElem?_eq_getElem h]

theorem readSlice_mid (pre mid suf : List Nat) :
    readSlice (pre ++ mid ++ suf) pre.length mid.length = .ok mid := by
  rw [List.append_assoc]
  exact readSlice_append pre mid suf

theorem take_append_len {α : Type} (c rest : List α) (n : Nat) (h : c.length = n) :
    (c ++ rest).take n = c := by
  subst h
  exact List.take_left c rest

theorem drop_append_len {α : Type} (c rest : List α) (n : Nat) (h : c.length = n) :
    (c ++ rest).drop n = rest := by
  subst h
  exact List.drop_left c rest

theorem strChunkUtf16_length (units : List Nat) :
    ((units.map (natToBytesLE 2)).flatten).length = units.length * 2 := by
  induction units with
  | nil => rfl
  | cons u us ih =>
      show (natToBytesLE 2 u ++ (us.map (natToBytesLE 2)).flatten).length = _
      rw [List.length_append, natToBytesLE_length, ih]
      simp [Nat.succ_mul]
      omega

theorem readUtf16LE_chunk (units : List Nat) (h : ∀ u ∈ units, u < 0x10000) :
    readStringVal.readUtf16LE units.length ((units.map (natToBytesLE 2)).flatten)
      = units := by
  induction units with
  | nil => rfl
  | cons u us ih =>
      have hlen : (natToBytesLE 2 u).length = 2 := natToBytesLE_length 2 u
      show readStringVal.readUtf16LE (us.length + 1)
        (natToBytesLE 2 u ++ (us.map (natToBytesLE 2)).flatten) = u :: us
      rw [readStringVal.readUtf16LE]
      rw [take_append_len _ _ _ hlen, drop_append_len _ _ _ hlen]
      rw [bytesToNatLE_natToBytesLE]
      rw [Nat.mod_eq_of_lt (by
        have := h u (List.mem_cons_self u us)
        norm_num
        omega)]
      rw [ih (fun x hx => h x (List.mem_cons_of_mem u hx))]

/-- The fixed-width accessor writes exactly `bytesCount` bytes. -/
theorem fixedKind_width (t : GLType) (hf : t.isFixed = true) :
    t.fixedKind.width = t.bytesCount := by
  cases t with
  | scalar k => rfl
  | boolean => rfl
  | ref => rfl
  | location => rfl
  | arraybuffer => simp [GLType.isFixed] at hf
  | string => simp [GLType.isFixed] at hf
  | image => simp [GLType.isFixed] at hf

theorem wordAt_first (pre : List Nat) (x : Nat) (l suf : List Nat) :
    wordAt (pre ++ (x :: l) ++ suf) pre.length = .ok x := by
  have h := wordAt_mid pre (x :: l) suf 0 (by simp)
  simpa using h

theorem wordAt_second (pre : List Nat) (x y : Nat) (l suf : List Nat) :
    wordAt (pre ++ (x :: y :: l) ++ suf) (pre.length + 1) = .ok y := by
  have h := wordAt_mid pre (x :: y :: l) suf 1 (by simp)
  simpa using h

theorem readSlice_chunk (pre chunk rest suf : List Nat) (n : Nat)
    (h : chunk.length = n) :
    readSlice (pre ++ (chunk ++ rest) ++ suf) pre.length n = .ok chunk := by
  subst h
  have hassoc : pre ++ (chunk ++ rest) ++ suf = pre ++ chunk ++ (rest ++ suf) := by
    simp [List.append_assoc]
  rw [hassoc]
  exact readSlice_mid pre chunk (rest ++ suf)

/-- Core agreement lemma: `_readCommand`'s argument loop, run over exactly
the header words and the value bytes the writer produced for a valid
argument list (embedded at arbitrary positions inside a larger command
stream and value buffer), reconstructs the expected values and finishes at
the positions just past the embedded material — the decoder and the encoder
walk the value buffer in lockstep.  (The alignment hypothesis reflects the
JS typed-array constructor: a multi-byte view over the packed layout decodes
only at an element-aligned byte offset.) -/
theorem readArgs_writeArgs (te : Bool) (g : World) (pfx : String)
    (types : List GLType) :
    ∀ (args : List GLValue), validArgs te g types args = true →
    ∀ (wsPre wsSuf bufPre bufSuf : List Nat),
    alignedArgs te types args bufPre.length = true →
    readArgs te pfx
        (wsPre ++ (writeArgs te g types args (layoutArgs te types args).1).2 ++ wsSuf)
        (bufPre ++ (writeArgs te g types args (layoutArgs te types args).1).1 ++ bufSuf)
        types wsPre.length bufPre.length
      = .ok (expectedVals pfx g types args,
             wsPre.length + (writeArgs te g types args (layoutArgs te types args).1).2.length,
             bufPre.length + (writeArgs te g types args (layoutArgs te types args).1).1.length) := by
  induction types with
  | nil =>
      intro args h wsPre wsSuf bufPre bufSuf halign
      simp [writeArgs, readArgs, expectedVals]
  | cons t ts ih =>
      intro args h wsPre wsSuf bufPre bufSuf halign
      cases args with
      | nil => simp [validArgs] at h
      | cons v vs =>
        simp only [validArgs, Bool.and_eq_true] at h
        obtain ⟨hv1, hv2⟩ := h
        cases t with
        | scalar k =>
            cases v with
            | num x =>
                rw [validArg] at hv1
                simp only [layoutArgs, layoutArg, writeArgs, writeArg,
                  List.nil_append, List.cons_append, expectedVals, expectedVal]
                simp only [readArgs, GLType.fixedKind, GLType.bytesCount]
                rw [readSlice_chunk bufPre (encodeScalarBE k x)
                  (writeArgs te g ts vs (layoutArgs te ts vs).1).1 bufSuf _
                  (encodeScalarBE_length k x)]
                simp only []
                rw [decodeScalarBE_encodeScalarBE k x hv1]
                have hbuf : bufPre ++ (encodeScalarBE k x ++
                    (writeArgs te g ts vs (layoutArgs te ts vs).1).1) ++ bufSuf
                    = (bufPre ++ encodeScalarBE k x) ++
                      (writeArgs te g ts vs (layoutArgs te ts vs).1).1 ++ bufSuf := by
                  simp [List.append_assoc]
                have hvPt : bufPre.length + k.width
                    = (bufPre ++ encodeScalarBE k x).length := by
                  simp [encodeScalarBE_length]
                have halign2 : alignedArgs te ts vs
                    (bufPre ++ encodeScalarBE k x).length = true := by
                  simp only [alignedArgs, layoutArg, Bool.true_and] at halign
                  simpa [encodeScalarBE_length, GLType.bytesCount] using halign
                rw [hbuf, hvPt,
                  ih vs hv2 wsPre wsSuf (bufPre ++ encodeScalarBE k x) bufSuf halign2]
                simp only [Except.ok.injEq, Prod.mk.injEq, List.length_append,
                  encodeScalarBE_length]
                refine ⟨trivial, trivial, by omega⟩
            | bool b => simp [validArg] at hv1
            | obj tok => simp [validArg] at hv1
            | arr ak elems => simp [validArg] at hv1
            | str units => simp [validArg] at hv1
            | img w h data => simp [validArg] at hv1
            | objList toks => simp [validArg] at hv1
        | boolean =>
            cases v with
            | bool b =>
                have hval : validScalar .u8 (if b then 1 else 0) = true := by
                  cases b <;> decide
                simp only [layoutArgs, layoutArg, writeArgs, writeArg,
                  List.nil_append, List.cons_append, expectedVals, expectedVal]
                simp only [readArgs, GLType.fixedKind, GLType.bytesCount]
                rw [readSlice_chunk bufPre (encodeScalarBE .u8 (if b then 1 else 0))
                  (writeArgs te g ts vs (layoutArgs te ts vs).1).1 bufSuf 1
                  (by simp [encodeScalarBE_length, ScalarKind.width])]
                simp only []
                simp only [decodeScalarBE_encodeScalarBE .u8 (if b then 1 else 0) hval]
                have hbuf : bufPre ++ (encodeScalarBE .u8 (if b then 1 else 0) ++
                    (writeArgs te g ts vs (layoutArgs te ts vs).1).1) ++ bufSuf
                    = (bufPre ++ encodeScalarBE .u8 (if b then 1 else 0)) ++
                      (writeArgs te g ts vs (layoutArgs te ts vs).1).1 ++ bufSuf := by
                  simp [List.append_assoc]
                have hvPt : bufPre.length + 1
                    = (bufPre ++ encodeScalarBE .u8 (if b then 1 else 0)).length := by
                  simp [encodeScalarBE_length, ScalarKind.width]
                have halign2 : alignedArgs te ts vs
                    (bufPre ++ encodeScalarBE .u8 (if b then 1 else 0)).length = true := by
                  simp only [alignedArgs, layoutArg, Bool.true_and] at halign
                  simpa [encodeScalarBE_length, ScalarKind.width,
                    GLType.bytesCount] using halign
                rw [hbuf, hvPt, ih vs hv2 wsPre wsSuf
                  (bufPre ++ encodeScalarBE .u8 (if b then 1 else 0)) bufSuf halign2]
                simp only [Except.ok.injEq, Prod.mk.injEq, List.length_append,
                  encodeScalarBE_length]
                refine ⟨?_, trivial, by simp [ScalarKind.width]; omega⟩
                cases b <;> norm_num
            | num x => simp [validArg] at hv1
            | obj tok => simp [validArg] at hv1
            | arr ak elems => simp [validArg] at hv1
            | str units => simp [validArg] at hv1
            | img w h data => simp [validArg] at hv1
            | objList toks => simp [validArg] at hv1
        | ref =>
            cases v with
            | obj tok =>
                rw [validArg, decide_eq_true_eq] at hv1
                have hval : validScalar .u32 (((g.keyOf tok).getD 0 : Nat) : Int) = true := by
                  simp only [validScalar, validInt, ScalarKind.sgn, ScalarKind.bits,
                    ScalarKind.width, Bool.and_eq_true, decide_eq_true_eq]
                  refine ⟨Int.ofNat_nonneg _, ?_⟩
                  exact_mod_cast hv1
                simp only [layoutArgs, layoutArg, writeArgs, writeArg,
                  List.nil_append, List.cons_append, expectedVals, expectedVal]
                simp only [readArgs, GLType.fixedKind, GLType.bytesCount]
                rw [readSlice_chunk bufPre
                  (encodeScalarBE .u32 (((g.keyOf tok).getD 0 : Nat) : Int))
                  (writeArgs te g ts vs (layoutArgs te ts vs).1).1 bufSuf 4
                  (by simp [encodeScalarBE_length, ScalarKind.width])]
                simp only []
                rw [decodeScalarBE_encodeScalarBE .u32 _ hval]
                have hbuf : bufPre ++ (encodeScalarBE .u32 (((g.keyOf tok).getD 0 : Nat) : Int) ++
                    (writeArgs te g ts vs (layoutArgs te ts vs).1).1) ++ bufSuf
                    = (bufPre ++ encodeScalarBE .u32 (((g.keyOf tok).getD 0 : Nat) : Int)) ++
                      (writeArgs te g ts vs (layoutArgs te ts vs).1).1 ++ bufSuf := by
                  simp [List.append_assoc]
                have hvPt : bufPre.length + 4
                    = (bufPre ++ encodeScalarBE .u32 (((g.keyOf tok).getD 0 : Nat) : Int)).length := by
                  simp [encodeScalarBE_length, ScalarKind.width]
                have halign2 : alignedArgs te ts vs
                    (bufPre ++ encodeScalarBE .u32
                      (((g.keyOf tok).getD 0 : Nat) : Int)).length = true := by
                  simp only [alignedArgs, layoutArg, Bool.true_and] at halign
                  simpa [encodeScalarBE_length, ScalarKind.width,
                    GLType.bytesCount] using halign
                rw [hbuf, hvPt, ih vs hv2 wsPre wsSuf
                  (bufPre ++ encodeScalarBE .u32 (((g.keyOf tok).getD 0 : Nat) : Int)) bufSuf
                  halign2]
                simp only [Except.ok.injEq, Prod.mk.injEq, List.length_append,
                  encodeScalarBE_length]
                refine ⟨trivial, trivial, by simp [ScalarKind.width]; omega⟩
            | num x => simp [validArg] at hv1
            | bool b => simp [validArg] at hv1
            | arr ak elems => simp [validArg] at hv1
            | str units => simp [validArg] at hv1
            | img w h data => simp [validArg] at hv1
            | objList toks => simp [validArg] at hv1
        | location =>
            cases v with
            | num x =>
                rw [validArg] at hv1
                simp only [layoutArgs, layoutArg, writeArgs, writeArg,
                  List.nil_append, List.cons_append, expectedVals, expectedVal]
                simp only [readArgs, GLType.fixedKind, GLType.bytesCount]
                rw [readSlice_chunk bufPre (encodeScalarBE .u32 x)
                  (writeArgs te g ts vs (layoutArgs te ts vs).1).1 bufSuf 4
                  (by simp [encodeScalarBE_length, ScalarKind.width])]
                simp only []
                rw [decodeScalarBE_encodeScalarBE .u32 x hv1]
                have hbuf : bufPre ++ (encodeScalarBE .u32 x ++
                    (writeArgs te g ts vs (layoutArgs te ts vs).1).1) ++ bufSuf
                    = (bufPre ++ encodeScalarBE .u32 x) ++
                      (writeArgs te g ts vs (layoutArgs te ts vs).1).1 ++ bufSuf := by
                  simp [List.append_assoc]
                have hvPt : bufPre.length + 4
                    = (bufPre ++ encodeScalarBE .u32 x).length := by
                  simp [encodeScalarBE_length, ScalarKind.width]
                have halign2 : alignedArgs te ts vs
                    (bufPre ++ encodeScalarBE .u32 x).length = true := by
                  simp only [alignedArgs, layoutArg, Bool.true_and] at halign
                  simpa [encodeScalarBE_length, ScalarKind.width,
                    GLType.bytesCount] using halign
                rw [hbuf, hvPt,
                  ih vs hv2 wsPre wsSuf (bufPre ++ encodeScalarBE .u32 x) bufSuf halign2]
                simp only [Except.ok.injEq, Prod.mk.injEq, List.length_append,
                  encodeScalarBE_length]
                refine ⟨trivial, trivial, by simp [ScalarKind.width]; omega⟩
            | bool b => simp [validArg] at hv1
            | obj tok => simp [validArg] at hv1
            | arr ak elems => simp [validArg] at hv1
            | str units => simp [validArg] at hv1
            | img w h data => simp [validArg] at hv1
            | objList toks => simp [validArg] at hv1
        | arraybuffer =>
            cases v with
            | arr ak elems =>
                rw [validArg] at hv1
                have hvalElems : ∀ x ∈ elems, validElem ak x = true := by
                  simpa [List.all_eq_true] using hv1
                simp only [layoutArgs, layoutArg, writeArgs, writeArg,
                  getTypeOfArrayByNum_num, List.nil_append, List.cons_append,
                  expectedVals, expectedVal]
                simp only [readArgs]
                rw [wordAt_first wsPre ak.num ((elems.length * ak.bpe) ::
                  (writeArgs te g ts vs (layoutArgs te ts vs).1).2) wsSuf]
                simp only [getTypeOfArrayByNum_num]
                rw [wordAt_second wsPre ak.num (elems.length * ak.bpe)
                  (writeArgs te g ts vs (layoutArgs te ts vs).1).2 wsSuf]
                simp only []
                simp only [alignedArgs, layoutArg, Bool.and_eq_true] at halign
                obtain ⟨ha1, ha2⟩ := halign
                have ha1' : bufPre.length % ak.bpe = 0 := by simpa using ha1
                rw [if_neg (by simp [ha1'])]
                rw [Nat.mul_div_cancel _ ak.bpe_pos]
                rw [readSlice_chunk bufPre (encodeElemsLE ak elems)
                  (writeArgs te g ts vs (layoutArgs te ts vs).1).1 bufSuf
                  (ak.bpe * elems.length)
                  (by rw [encodeElemsLE_length, Nat.mul_comm])]
                simp only []
                rw [decodeElemsLE_encodeElemsLE ak elems hvalElems]
                have hws2 : wsPre ++ (ak.num :: (elems.length * ak.bpe) ::
                    (writeArgs te g ts vs (layoutArgs te ts vs).1).2) ++ wsSuf
                    = (wsPre ++ [ak.num, elems.length * ak.bpe]) ++
                      (writeArgs te g ts vs (layoutArgs te ts vs).1).2 ++ wsSuf := by
                  simp
                have hcPt2 : wsPre.length + 1 + 1
                    = (wsPre ++ [ak.num, elems.length * ak.bpe]).length := by
                  simp
                have hbuf2 : bufPre ++ (encodeElemsLE ak elems ++
                    (writeArgs te g ts vs (layoutArgs te ts vs).1).1) ++ bufSuf
                    = (bufPre ++ encodeElemsLE ak elems) ++
                      (writeArgs te g ts vs (layoutArgs te ts vs).1).1 ++ bufSuf := by
                  simp [List.append_assoc]
                have hvPt2 : bufPre.length + elems.length * ak.bpe
                    = (bufPre ++ encodeElemsLE ak elems).length := by
                  simp [encodeElemsLE_length]
                have halign2 : alignedArgs te ts vs
                    (bufPre ++ encodeElemsLE ak elems).length = true := by
                  simpa [encodeElemsLE_length] using ha2
                rw [hws2, hcPt2, hbuf2, hvPt2,
                  ih vs hv2 (wsPre ++ [ak.num, elems.length * ak.bpe]) wsSuf
                    (bufPre ++ encodeElemsLE ak elems) bufSuf halign2]
                simp only [Except.ok.injEq, Prod.mk.injEq, List.length_append,
                  List.length_cons, encodeElemsLE_length]
                refine ⟨trivial, ?_, ?_⟩ <;>
                  first
                  | omega
                  | (simp only [List.length_append, List.length_cons, List.length_nil,
                      encodeElemsLE_length]; omega)
            | num x => simp [validArg] at hv1
            | bool b => simp [validArg] at hv1
            | obj tok => simp [validArg] at hv1
            | str units => simp [validArg] at hv1
            | img w h data => simp [validArg] at hv1
            | objList toks => simp [validArg] at hv1
        | string =>
            cases v with
            | str units =>
                rw [validArg] at hv1
                cases te with
                | true =>
                    have hunits : ∀ u ∈ units, u < 0x10000 := by
                      intro u hu
                      have h := (List.all_eq_true.mp hv1) u hu
                      simp at h
                      exact h.1
                    simp only [layoutArgs, layoutArg, writeArgs, writeArg,
                      List.nil_append, List.cons_append, expectedVals, expectedVal,
                      if_pos]
                    simp only [readArgs]
                    rw [wordAt_first wsPre (utf8Encode units).length
                      (writeArgs true g ts vs (layoutArgs true ts vs).1).2 wsSuf]
                    simp only [readStringVal, if_pos]
                    rw [readSlice_chunk bufPre (utf8Encode units)
                      (writeArgs true g ts vs (layoutArgs true ts vs).1).1 bufSuf
                      (utf8Encode units).length rfl]
                    simp only []
                    rw [utf8Decode_utf8Encode units hunits]
                    have hws2 : wsPre ++ ((utf8Encode units).length ::
                        (writeArgs true g ts vs (layoutArgs true ts vs).1).2) ++ wsSuf
                        = (wsPre ++ [(utf8Encode units).length]) ++
                          (writeArgs true g ts vs (layoutArgs true ts vs).1).2 ++ wsSuf := by
                      simp
                    have hcPt2 : wsPre.length + 1
                        = (wsPre ++ [(utf8Encode units).length]).length := by
                      simp
                    have hbuf2 : bufPre ++ (utf8Encode units ++
                        (writeArgs true g ts vs (layoutArgs true ts vs).1).1) ++ bufSuf
                        = (bufPre ++ utf8Encode units) ++
                          (writeArgs true g ts vs (layoutArgs true ts vs).1).1 ++ bufSuf := by
                      simp [List.append_assoc]
                    have hvPt2 : bufPre.length + (utf8Encode units).length
                        = (bufPre ++ utf8Encode units).length := by
                      simp
                    have halign2 : alignedArgs true ts vs
                        (bufPre ++ utf8Encode units).length = true := by
                      simpa [alignedArgs, layoutArg] using halign
                    rw [hws2, hcPt2, hbuf2, hvPt2,
                      ih vs hv2 (wsPre ++ [(utf8Encode units).length]) wsSuf
                        (bufPre ++ utf8Encode units) bufSuf halign2]
                    simp only [Except.ok.injEq, Prod.mk.injEq, List.length_append,
                      List.length_cons]
                    refine ⟨trivial, ?_, ?_⟩ <;>
                      first
                      | omega
                      | (simp only [List.length_append, List.length_cons,
                          List.length_nil]; omega)
                | false =>
                    have hunits : ∀ u ∈ units, u < 0x10000 := by
                      intro u hu
                      have h := (List.all_eq_true.mp hv1) u hu
                      simp at h
                      exact h
                    simp only [layoutArgs, layoutArg, writeArgs, writeArg,
                      List.nil_append, List.cons_append, expectedVals, expectedVal,
                      Bool.false_eq_true, if_false]
                    simp only [readArgs]
                    rw [wordAt_first wsPre (units.length * 2)
                      (writeArgs false g ts vs (layoutArgs false ts vs).1).2 wsSuf]
                    simp only [readStringVal, Bool.false_eq_true, if_false]
                    simp only [alignedArgs, layoutArg, Bool.false_eq_true, if_false,
                      Bool.false_or, Bool.and_eq_true] at halign
                    obtain ⟨ha1, ha2⟩ := halign
                    have ha1' : bufPre.length % 2 = 0 := by simpa using ha1
                    rw [if_neg (by simp [ha1'])]
                    rw [Nat.mul_div_cancel _ (by norm_num : (0:Nat) < 2)]
                    rw [readSlice_chunk bufPre ((units.map (natToBytesLE 2)).flatten)
                      (writeArgs false g ts vs (layoutArgs false ts vs).1).1 bufSuf
                      (2 * units.length)
                      (by rw [strChunkUtf16_length, Nat.mul_comm])]
                    simp only []
                    rw [readUtf16LE_chunk units hunits]
                    have hws2 : wsPre ++ ((units.length * 2) ::
                        (writeArgs false g ts vs (layoutArgs false ts vs).1).2) ++ wsSuf
                        = (wsPre ++ [units.length * 2]) ++
                          (writeArgs false g ts vs (layoutArgs false ts vs).1).2 ++ wsSuf := by
                      simp
                    have hcPt2 : wsPre.length + 1
                        = (wsPre ++ [units.length * 2]).length := by
                      simp
                    have hbuf2 : bufPre ++ ((units.map (natToBytesLE 2)).flatten ++
                        (writeArgs false g ts vs (layoutArgs false ts vs).1).1) ++ bufSuf
                        = (bufPre ++ (units.map (natToBytesLE 2)).flatten) ++
                          (writeArgs false g ts vs (layoutArgs false ts vs).1).1 ++ bufSuf := by
                      simp [List.append_assoc]
                    have hvPt2 : bufPre.length + units.length * 2
                        = (bufPre ++ (units.map (natToBytesLE 2)).flatten).length := by
                      rw [List.length_append, strChunkUtf16_length]
                    have halign2 : alignedArgs false ts vs
                        (bufPre ++ (units.map (natToBytesLE 2)).flatten).length = true := by
                      rw [List.length_append, strChunkUtf16_length]
                      exact ha2
                    rw [hws2, hcPt2, hbuf2, hvPt2,
                      ih vs hv2 (wsPre ++ [units.length * 2]) wsSuf
                        (bufPre ++ (units.map (natToBytesLE 2)).flatten) bufSuf halign2]
                    simp only [Except.ok.injEq, Prod.mk.injEq, List.length_append,
                      List.length_cons, strChunkUtf16_length]
                    refine ⟨trivial, ?_, ?_⟩ <;>
                      first
                      | omega
                      | (simp only [List.length_append, List.length_cons, List.length_nil,
                          strChunkUtf16_length]; omega)
            | num x => simp [validArg] at hv1
            | bool b => simp [validArg] at hv1
            | obj tok => simp [validArg] at hv1
            | arr ak elems => simp [validArg] at hv1
            | img w h data => simp [validArg] at hv1
            | objList toks => simp [validArg] at hv1
        | image =>
            cases v with
            | img w h data =>
                simp only [layoutArgs, layoutArg, writeArgs, writeArg,
                  List.nil_append, List.cons_append, expectedVals, expectedVal]
                simp only [readArgs]
                rw [wordAt_first wsPre w (h ::
                  (writeArgs te g ts vs (layoutArgs te ts vs).1).2) wsSuf]
                simp only []
                rw [wordAt_second wsPre w h
                  (writeArgs te g ts vs (layoutArgs te ts vs).1).2 wsSuf]
                simp only []
                rw [readSlice_chunk bufPre (List.replicate (w * h * 4) 0)
                  (writeArgs te g ts vs (layoutArgs te ts vs).1).1 bufSuf
                  (w * h * 4) (List.length_replicate _ _)]
                simp only []
                have hws2 : wsPre ++ (w :: h ::
                    (writeArgs te g ts vs (layoutArgs te ts vs).1).2) ++ wsSuf
                    = (wsPre ++ [w, h]) ++
                      (writeArgs te g ts vs (layoutArgs te ts vs).1).2 ++ wsSuf := by
                  simp
                have hcPt2 : wsPre.length + 1 + 1 = (wsPre ++ [w, h]).length := by
                  simp
                have hbuf2 : bufPre ++ (List.replicate (w * h * 4) 0 ++
                    (writeArgs te g ts vs (layoutArgs te ts vs).1).1) ++ bufSuf
                    = (bufPre ++ List.replicate (w * h * 4) 0) ++
                      (writeArgs te g ts vs (layoutArgs te ts vs).1).1 ++ bufSuf := by
                  simp [List.append_assoc]
                have hvPt2 : bufPre.length + w * h * 4
                    = (bufPre ++ List.replicate (w * h * 4) 0).length := by
                  simp
                have hlen : data.length = w * h * 4 := by
                  rw [validArg] at hv1
                  simp only [Bool.and_eq_true, beq_iff_eq] at hv1
                  exact hv1.1
                have halign2 : alignedArgs te ts vs
                    (bufPre ++ List.replicate (w * h * 4) 0).length = true := by
                  simp only [alignedArgs, layoutArg, Bool.true_and] at halign
                  rw [hlen] at halign
                  simpa using halign
                rw [hws2, hcPt2, hbuf2, hvPt2,
                  ih vs hv2 (wsPre ++ [w, h]) wsSuf
                    (bufPre ++ List.replicate (w * h * 4) 0) bufSuf halign2]
                simp only [Except.ok.injEq, Prod.mk.injEq, List.length_append,
                  List.length_cons, List.length_replicate]
                refine ⟨trivial, ?_, ?_⟩ <;>
                  first
                  | omega
                  | (simp only [List.length_append, List.length_cons, List.length_nil,
                      List.length_replicate]; omega)
            | num x => simp [validArg] at hv1
            | bool b => simp [validArg] at hv1
            | obj tok => simp [validArg] at hv1
            | arr ak elems => simp [validArg] at hv1
            | str units => simp [validArg] at hv1
            | objList toks => simp [validArg] at hv1

/-! ## Decoding the return slot the writer produced -/

theorem bytesCount_le_fixedKind_width (t : GLType) :
    t.bytesCount ≤ t.fixedKind.width := by
  cases t <;> simp [GLType.bytesCount, GLType.fixedKind, ScalarKind.width]

/-- The `while` loop over a list-return slot laid out by the writer
terminates exactly at the end of the buffer. -/
theorem readReturnList_flatten (pfx : String) (g : World) (toks : List Nat) :
    ∀ (pre : List Nat),
    ∃ ids, readReturnList pfx
      (pre ++ (toks.map (fun tok =>
        encodeScalarBE GLType.ref.fixedKind (((g.keyOf tok).getD 0 : Nat) : Int))).flatten)
      GLType.ref pre.length
      = .ok (ids, (pre ++ (toks.map (fun tok =>
        encodeScalarBE GLType.ref.fixedKind (((g.keyOf tok).getD 0 : Nat) : Int))).flatten).length) := by
  induction toks with
  | nil =>
      intro pre
      refine ⟨[], ?_⟩
      rw [readReturnList.eq_def]
      simp
  | cons tok toks ih =>
      intro pre
      have hc : (encodeScalarBE GLType.ref.fixedKind
          (((g.keyOf tok).getD 0 : Nat) : Int)).length = 4 := by
        simp [encodeScalarBE_length, GLType.fixedKind, ScalarKind.width]
      obtain ⟨ids, hids⟩ := ih (pre ++ encodeScalarBE GLType.ref.fixedKind
        (((g.keyOf tok).getD 0 : Nat) : Int))
      refine ⟨(pfx ++ toString (decodeScalarBE GLType.ref.fixedKind
        (encodeScalarBE GLType.ref.fixedKind (((g.keyOf tok).getD 0 : Nat) : Int)))) :: ids, ?_⟩
      rw [readReturnList.eq_def]
      simp only [List.map_cons, List.flatten_cons]
      rw [dif_pos (by simp only [List.length_append, List.length_cons, hc]; omega)]
      rw [dif_neg (by simp [GLType.bytesCount])]
      have hslice : readSlice (pre ++ (encodeScalarBE GLType.ref.fixedKind
          (((g.keyOf tok).getD 0 : Nat) : Int) ++
          (toks.map (fun tok => encodeScalarBE GLType.ref.fixedKind
            (((g.keyOf tok).getD 0 : Nat) : Int))).flatten))
          pre.length (GLType.ref.bytesCount)
          = .ok (encodeScalarBE GLType.ref.fixedKind (((g.keyOf tok).getD 0 : Nat) : Int)) := by
        have h := readSlice_append pre
          (encodeScalarBE GLType.ref.fixedKind (((g.keyOf tok).getD 0 : Nat) : Int))
          ((toks.map (fun tok => encodeScalarBE GLType.ref.fixedKind
            (((g.keyOf tok).getD 0 : Nat) : Int))).flatten)
        rw [show GLType.ref.bytesCount = (encodeScalarBE GLType.ref.fixedKind
          (((g.keyOf tok).getD 0 : Nat) : Int)).length by rw [hc]; rfl]
        exact h
      rw [hslice]
      simp only []
      have hadv : pre.length + GLType.ref.bytesCount
          = (pre ++ encodeScalarBE GLType.ref.fixedKind
              (((g.keyOf tok).getD 0 : Nat) : Int)).length := by
        simp only [List.length_append, hc, GLType.bytesCount]
      have hshape : pre ++ (encodeScalarBE GLType.ref.fixedKind
          (((g.keyOf tok).getD 0 : Nat) : Int) ++
          (toks.map (fun tok => encodeScalarBE GLType.ref.fixedKind
            (((g.keyOf tok).getD 0 : Nat) : Int))).flatten)
          = (pre ++ encodeScalarBE GLType.ref.fixedKind
              (((g.keyOf tok).getD 0 : Nat) : Int)) ++
            (toks.map (fun tok => encodeScalarBE GLType.ref.fixedKind
              (((g.keyOf tok).getD 0 : Nat) : Int))).flatten := by
        simp [List.append_assoc]
      rw [hadv, hshape, hids]

/-- The return-slot read succeeds on whatever the writer's return slot holds,
for a well-formed return declaration (a list return uses `Ref`, and a
declared return type implies a trailing pseudo-argument is present — the
arity check guarantees it). -/
theorem readReturn_writeReturnSlot (pfx : String) (g : World) (rt : Option RetType)
    (lastArg : Option GLValue) (pre : List Nat)
    (hret : ∀ t, rt = some (.list t) → t = GLType.ref)
    (hlast : rt.isSome → lastArg.isSome) :
    ∃ refv vPtEnd, readReturn pfx (pre ++ writeReturnSlot g rt lastArg) rt pre.length
      = .ok (refv, vPtEnd) := by
  match rt, lastArg with
  | none, la =>
      exact ⟨.zero, pre.length, rfl⟩
  | some (.single t), some v =>
      have hlen : (writeReturnSlot g (some (.single t)) (some v)).length
          = t.fixedKind.width := by
        simp only [writeReturnSlot]
        rw [encodeScalarBE_length]
      refine ⟨.one (pfx ++ toString (decodeScalarBE t.fixedKind
        (((pre ++ writeReturnSlot g (some (.single t)) (some v)).drop
          pre.length).take t.bytesCount))), pre.length + t.bytesCount, ?_⟩
      simp only [readReturn]
      have hok : readSlice (pre ++ writeReturnSlot g (some (.single t)) (some v))
          pre.length t.bytesCount
          = .ok (((pre ++ writeReturnSlot g (some (.single t)) (some v)).drop
              pre.length).take t.bytesCount) := by
        unfold readSlice
        rw [if_pos (by
          simp only [List.length_append, hlen]
          have hle := bytesCount_le_fixedKind_width t
          omega)]
      rw [hok]
  | some (.single t), none =>
      exact absurd (hlast rfl) (by simp)
  | some (.list t), la =>
      have ht := hret t rfl
      subst ht
      match la with
      | some (.objList toks) =>
          obtain ⟨ids, hids⟩ := readReturnList_flatten pfx g toks pre
          refine ⟨.many ids, (pre ++ (toks.map (fun tok =>
            encodeScalarBE GLType.ref.fixedKind
              (((g.keyOf tok).getD 0 : Nat) : Int))).flatten).length, ?_⟩
          simp only [readReturn, writeReturnSlot]
          rw [hids]
      | some (.num x) =>
          refine ⟨.many [], pre.length, ?_⟩
          simp only [readReturn, writeReturnSlot]
          rw [readReturnList.eq_def]
          simp
      | some (.bool b) =>
          refine ⟨.many [], pre.length, ?_⟩
          simp only [readReturn, writeReturnSlot]
          rw [readReturnList.eq_def]
          simp
      | some (.obj tok) =>
          refine ⟨.many [], pre.length, ?_⟩
          simp only [readReturn, writeReturnSlot]
          rw [readReturnList.eq_def]
          simp
      | some (.arr k elems) =>
          refine ⟨.many [], pre.length, ?_⟩
          simp only [readReturn, writeReturnSlot]
          rw [readReturnList.eq_def]
          simp
      | some (.str units) =>
          refine ⟨.many [], pre.length, ?_⟩
          simp only [readReturn, writeReturnSlot]
          rw [readReturnList.eq_def]
          simp
      | some (.img w h d) =>
          refine ⟨.many [], pre.length, ?_⟩
          simp only [readReturn, writeReturnSlot]
          rw [readReturnList.eq_def]
          simp
      | none =>
          exact absurd (hlast rfl) (by simp)

/-- The header entries of `_getBufferTypes` are those of its argument loop
(the return contribution affects only the size). -/
theorem getBufferTypes_fst (te : Bool) (ct : CommandDesc) (args : List GLValue) :
    (getBufferTypes te ct args).1 = (layoutArgs te ct.argTypes args).1 := by
  rcases h : layoutArgs te ct.argTypes args with ⟨a, b⟩
  simp [getBufferTypes, h]

/-- The full single-command pipeline: `addCommand` on a writer with no
pending commands, `getBuffer`, then the player's `addBuffer`, decodes one
`CommandRecord` carrying the command's name, its declared argument types and
the expected argument values (`g'` is the world after the writer's
ref-creator tagging). -/
theorem addBuffer_addCommand (te : Bool) (reg : Registry) (g : World)
    (w : GLBufferWriter) (name : String) (args : List GLValue)
    (ct : CommandDesc) (w' : GLBufferWriter) (g' : World) (p : GLBufferPlayer)
    (h1 : reg.byName name = some ct)
    (h2 : reg.byNum ct.num = some ct)
    (h4 : GLBufferWriter.addCommand te reg g w name args = .ok (w', g'))
    (h5 : validArgs te g' ct.argTypes args = true)
    (h5a : alignedArgs te ct.argTypes args 0 = true)
    (h6 : ∀ t, ct.returnType = some (.list t) → t = GLType.ref)
    (h7 : w.commands = []) (h8 : w.valueBuffers = []) :
    ∃ rec : CommandRecord,
      GLBufferPlayer.addBuffer te reg p w'.getBuffer
        = ({ p with commands := p.commands ++ [rec] }, none)
      ∧ rec.name = ct.name ∧ rec.types = ct.argTypes
      ∧ rec.args = expectedVals w.refPrefix g' ct.argTypes args := by
  -- extract the committed state from `addCommand`
  rw [GLBufferWriter.addCommand, h1] at h4
  simp only [] at h4
  have harity : ct.argTypes.length + (if ct.returnType.isSome then 1 else 0)
      = args.length := by
    by_cases hc : ct.argTypes.length + (if ct.returnType.isSome then 1 else 0)
        = args.length
    · exact hc
    · rw [if_pos hc] at h4
      exact absurd h4 (by simp)
  rw [if_neg (not_ne_iff.mpr harity)] at h4
  have hsave : saveCommand te reg g w ct name args = (w', g') := by
    injection h4
  rw [saveCommand] at hsave
  simp only [getBufferTypes_fst] at hsave
  have hw' := congrArg Prod.fst hsave
  have hg' := congrArg Prod.snd hsave
  simp only at hw' hg'
  -- the wire snapshot
  have hwire : w'.getBuffer
      = ⟨w.refPrefix,
         ct.num :: (writeArgs te g' ct.argTypes args
           (layoutArgs te ct.argTypes args).1).2,
         [(writeArgs te g' ct.argTypes args (layoutArgs te ct.argTypes args).1).1
           ++ writeReturnSlot g' ct.returnType args.getLast?]⟩ := by
    rw [← hw', ← hg']
    simp [GLBufferWriter.getBuffer, h7, h8]
  -- the trailing pseudo-argument exists whenever a return type is declared
  have hlast : ct.returnType.isSome → args.getLast?.isSome := by
    intro hs
    rw [hs] at harity
    simp only [if_pos] at harity
    have hne : args ≠ [] := by
      intro hnil
      rw [hnil] at harity
      simp at harity
    simp [List.getLast?_isSome, hne]
  -- the decoder's argument pass over exactly the writer's output
  have hargs := readArgs_writeArgs te g' w.refPrefix ct.argTypes args h5
    [ct.num] [] []
    (writeReturnSlot g' ct.returnType args.getLast?) h5a
  simp only [List.singleton_append, List.append_nil, List.nil_append,
    List.length_cons, List.length_nil, Nat.zero_add] at hargs
  -- the return-slot read
  obtain ⟨refv, vPtEnd, hret⟩ := readReturn_writeReturnSlot w.refPrefix g'
    ct.returnType args.getLast?
    (writeArgs te g' ct.argTypes args (layoutArgs te ct.argTypes args).1).1 h6 hlast
  -- the single `_readCommand`
  have hread : readCommand te reg
      (ct.num :: (writeArgs te g' ct.argTypes args
        (layoutArgs te ct.argTypes args).1).2)
      0
      ((writeArgs te g' ct.argTypes args (layoutArgs te ct.argTypes args).1).1
        ++ writeReturnSlot g' ct.returnType args.getLast?)
      w.refPrefix
      = .ok ({ name := ct.name, types := ct.argTypes,
               args := expectedVals w.refPrefix g' ct.argTypes args,
               ref := refv },
             1 + (writeArgs te g' ct.argTypes args
               (layoutArgs te ct.argTypes args).1).2.length) := by
    rw [readCommand]
    rw [show wordAt (ct.num :: (writeArgs te g' ct.argTypes args
      (layoutArgs te ct.argTypes args).1).2) 0 = .ok ct.num by simp [wordAt]]
    simp only []
    rw [h2]
    simp only []
    rw [hargs]
    simp only []
    rw [hret]
  -- the `_parse` loop over the one-buffer snapshot
  have hparse : parseLoop te reg
      (ct.num :: (writeArgs te g' ct.argTypes args
        (layoutArgs te ct.argTypes args).1).2)
      w.refPrefix 0
      [(writeArgs te g' ct.argTypes args (layoutArgs te ct.argTypes args).1).1
        ++ writeReturnSlot g' ct.returnType args.getLast?]
      = ([{ name := ct.name, types := ct.argTypes,
            args := expectedVals w.refPrefix g' ct.argTypes args,
            ref := refv }], none) := by
    rw [parseLoop]
    rw [if_pos (by simp)]
    rw [hread]
    simp only []
    rw [parseLoop]
    rw [if_neg (by simp only [List.length_cons]; omega)]
  refine ⟨{ name := ct.name, types := ct.argTypes,
            args := expectedVals w.refPrefix g' ct.argTypes args,
            ref := refv }, ?_, rfl, rfl, rfl⟩
  rw [GLBufferPlayer.addBuffer, hwire]
  simp only []
  rw [hparse]

/-! ## Width lockstep and truncation behaviour -/

theorem getElem?_of_wordAt {ws : List Nat} {i x : Nat} (h : wordAt ws i = .ok x) :
    ws[i]? = some x := by
  unfold wordAt at h
  cases hw : ws[i]? with
  | none => rw [hw] at h; simp at h
  | some y => rw [hw] at h; simp at h; rw [h]

theorem getElem?_first (pre : List Nat) (x : Nat) (l suf : List Nat) :
    (pre ++ (x :: l) ++ suf)[pre.length]? = some x :=
  getElem?_of_wordAt (wordAt_first pre x l suf)

theorem getElem?_second (pre : List Nat) (x y : Nat) (l suf : List Nat) :
    (pre ++ (x :: y :: l) ++ suf)[pre.length + 1]? = some y :=
  getElem?_of_wordAt (wordAt_second pre x y l suf)

/-- The central buffer-symmetry invariant, per argument position: the widths
the decoder computes from the header words the writer wrote equal the widths
the encoder computed in its layout pass from the concrete arguments. -/
theorem decArgWidths_writeArgs (te : Bool) (g : World) (types : List GLType) :
    ∀ (args : List GLValue), validArgs te g types args = true →
    ∀ (wsPre wsSuf : List Nat),
    decArgWidths (wsPre ++ (writeArgs te g types args (layoutArgs te types args).1).2 ++ wsSuf)
        types wsPre.length
      = some (encArgWidths te types args) := by
  induction types with
  | nil => intro args h wsPre wsSuf; simp [writeArgs, decArgWidths, encArgWidths]
  | cons t ts ih =>
      intro args h wsPre wsSuf
      cases args with
      | nil => simp [validArgs] at h
      | cons v vs =>
        simp only [validArgs, Bool.and_eq_true] at h
        obtain ⟨hv1, hv2⟩ := h
        cases t with
        | scalar k =>
            cases v with
            | num x =>
                simp only [layoutArgs, layoutArg, writeArgs, writeArg,
                  List.nil_append, List.cons_append, encArgWidths]
                simp only [decArgWidths]
                rw [ih vs hv2 wsPre wsSuf]
            | bool b => simp [validArg] at hv1
            | obj tok => simp [validArg] at hv1
            | arr ak elems => simp [validArg] at hv1
            | str units => simp [validArg] at hv1
            | img w h data => simp [validArg] at hv1
            | objList toks => simp [validArg] at hv1
        | boolean =>
            cases v with
            | bool b =>
                simp only [layoutArgs, layoutArg, writeArgs, writeArg,
                  List.nil_append, List.cons_append, encArgWidths]
                simp only [decArgWidths]
                rw [ih vs hv2 wsPre wsSuf]
            | num x => simp [validArg] at hv1
            | obj tok => simp [validArg] at hv1
            | arr ak elems => simp [validArg] at hv1
            | str units => simp [validArg] at hv1
            | img w h data => simp [validArg] at hv1
            | objList toks => simp [validArg] at hv1
        | ref =>
            cases v with
            | obj tok =>
                simp only [layoutArgs, layoutArg, writeArgs, writeArg,
                  List.nil_append, List.cons_append, encArgWidths]
                simp only [decArgWidths]
                rw [ih vs hv2 wsPre wsSuf]
            | num x => simp [validArg] at hv1
            | bool b => simp [validArg] at hv1
            | arr ak elems => simp [validArg] at hv1
            | str units => simp [validArg] at hv1
            | img w h data => simp [validArg] at hv1
            | objList toks => simp [validArg] at hv1
        | location =>
            cases v with
            | num x =>
                simp only [layoutArgs, layoutArg, writeArgs, writeArg,
                  List.nil_append, List.cons_append, encArgWidths]
                simp only [decArgWidths]
                rw [ih vs hv2 wsPre wsSuf]
            | bool b => simp [validArg] at hv1
            | obj tok => simp [validArg] at hv1
            | arr ak elems => simp [validArg] at hv1
            | str units => simp [validArg] at hv1
            | img w h data => simp [validArg] at hv1
            | objList toks => simp [validArg] at hv1
        | arraybuffer =>
            cases v with
            | arr ak elems =>
                simp only [layoutArgs, layoutArg, writeArgs, writeArg,
                  getTypeOfArrayByNum_num, List.nil_append, List.cons_append,
                  encArgWidths]
                simp only [decArgWidths]
                rw [getElem?_first wsPre ak.num ((elems.length * ak.bpe) ::
                  (writeArgs te g ts vs (layoutArgs te ts vs).1).2) wsSuf]
                simp only [getTypeOfArrayByNum_num]
                rw [getElem?_second wsPre ak.num (elems.length * ak.bpe)
                  (writeArgs te g ts vs (layoutArgs te ts vs).1).2 wsSuf]
                simp only []
                have hws2 : wsPre ++ (ak.num :: (elems.length * ak.bpe) ::
                    (writeArgs te g ts vs (layoutArgs te ts vs).1).2) ++ wsSuf
                    = (wsPre ++ [ak.num, elems.length * ak.bpe]) ++
                      (writeArgs te g ts vs (layoutArgs te ts vs).1).2 ++ wsSuf := by
                  simp
                have hcPt2 : wsPre.length + 1 + 1
                    = (wsPre ++ [ak.num, elems.length * ak.bpe]).length := by
                  simp
                rw [hws2, hcPt2, ih vs hv2 (wsPre ++ [ak.num, elems.length * ak.bpe]) wsSuf]
            | num x => simp [validArg] at hv1
            | bool b => simp [validArg] at hv1
            | obj tok => simp [validArg] at hv1
            | str units => simp [validArg] at hv1
            | img w h data => simp [validArg] at hv1
            | objList toks => simp [validArg] at hv1
        | string =>
            cases v with
            | str units =>
                cases te with
                | true =>
                    simp only [layoutArgs, layoutArg, writeArgs, writeArg,
                      List.nil_append, List.cons_append, encArgWidths, if_pos]
                    simp only [decArgWidths]
                    rw [getElem?_first wsPre (utf8Encode units).length
                      (writeArgs true g ts vs (layoutArgs true ts vs).1).2 wsSuf]
                    simp only []
                    have hws2 : wsPre ++ ((utf8Encode units).length ::
                        (writeArgs true g ts vs (layoutArgs true ts vs).1).2) ++ wsSuf
                        = (wsPre ++ [(utf8Encode units).length]) ++
                          (writeArgs true g ts vs (layoutArgs true ts vs).1).2 ++ wsSuf := by
                      simp
                    have hcPt2 : wsPre.length + 1
                        = (wsPre ++ [(utf8Encode units).length]).length := by
                      simp
                    rw [hws2, hcPt2, ih vs hv2 (wsPre ++ [(utf8Encode units).length]) wsSuf]
                | false =>
                    simp only [layoutArgs, layoutArg, writeArgs, writeArg,
                      List.nil_append, List.cons_append, encArgWidths,
                      Bool.false_eq_true, if_false]
                    simp only [decArgWidths]
                    rw [getElem?_first wsPre (units.length * 2)
                      (writeArgs false g ts vs (layoutArgs false ts vs).1).2 wsSuf]
                    simp only []
                    have hws2 : wsPre ++ ((units.length * 2) ::
                        (writeArgs false g ts vs (layoutArgs false ts vs).1).2) ++ wsSuf
                        = (wsPre ++ [units.length * 2]) ++
                          (writeArgs false g ts vs (layoutArgs false ts vs).1).2 ++ wsSuf := by
                      simp
                    have hcPt2 : wsPre.length + 1
                        = (wsPre ++ [units.length * 2]).length := by
                      simp
                    rw [hws2, hcPt2, ih vs hv2 (wsPre ++ [units.length * 2]) wsSuf]
            | num x => simp [validArg] at hv1
            | bool b => simp [validArg] at hv1
            | obj tok => simp [validArg] at hv1
            | arr ak elems => simp [validArg] at hv1
            | img w h data => simp [validArg] at hv1
            | objList toks => simp [validArg] at hv1
        | image =>
            cases v with
            | img w h data =>
                rw [validArg] at hv1
                simp only [Bool.and_eq_true, beq_iff_eq] at hv1
                obtain ⟨hlen, _⟩ := hv1
                simp only [layoutArgs, layoutArg, writeArgs, writeArg,
                  List.nil_append, List.cons_append, encArgWidths]
                simp only [decArgWidths]
                rw [getElem?_first wsPre w (h ::
                  (writeArgs te g ts vs (layoutArgs te ts vs).1).2) wsSuf]
                simp only []
                rw [getElem?_second wsPre w h
                  (writeArgs te g ts vs (layoutArgs te ts vs).1).2 wsSuf]
                simp only []
                have hws2 : wsPre ++ (w :: h ::
                    (writeArgs te g ts vs (layoutArgs te ts vs).1).2) ++ wsSuf
                    = (wsPre ++ [w, h]) ++
                      (writeArgs te g ts vs (layoutArgs te ts vs).1).2 ++ wsSuf := by
                  simp
                have hcPt2 : wsPre.length + 1 + 1 = (wsPre ++ [w, h]).length := by
                  simp
                rw [hws2, hcPt2, ih vs hv2 (wsPre ++ [w, h]) wsSuf]
                rw [hlen]
            | num x => simp [validArg] at hv1
            | bool b => simp [validArg] at hv1
            | obj tok => simp [validArg] at hv1
            | arr ak elems => simp [validArg] at hv1
            | str units => simp [validArg] at hv1
            | objList toks => simp [validArg] at hv1

/-- `_readString` either yields a string, with the bytes its typed-array
view actually spans (`bytesCount` on the UTF-8 path, `2 * (bytesCount / 2)`
on the UTF-16 path) in bounds, or fails with the `RangeError` mapped to
truncation. -/
theorem readStringVal_cases (td : Bool) (buf : List Nat) (vPt bytes : Nat) :
    (∃ units, readStringVal td buf vPt bytes = .ok units
        ∧ vPt + (if td then bytes else 2 * (bytes / 2)) ≤ buf.length)
    ∨ readStringVal td buf vPt bytes = .error .truncated := by
  cases td with
  | true =>
      by_cases hb : vPt + bytes ≤ buf.length
      · left
        refine ⟨utf8Decode ((buf.drop vPt).take bytes), ?_, by simpa using hb⟩
        simp only [readStringVal, readSlice, if_pos, if_pos hb]
      · right
        simp only [readStringVal, readSlice, if_pos, if_neg hb]
  | false =>
      by_cases hal : vPt % 2 ≠ 0
      · right
        simp only [readStringVal, Bool.false_eq_true, if_false, if_pos hal]
      · by_cases hb : vPt + 2 * (bytes / 2) ≤ buf.length
        · left
          refine ⟨readStringVal.readUtf16LE (bytes / 2)
            ((buf.drop vPt).take (2 * (bytes / 2))), ?_, by simpa using hb⟩
          simp only [readStringVal, Bool.false_eq_true, if_false, if_neg hal,
            readSlice, if_pos hb]
        · right
          simp only [readStringVal, Bool.false_eq_true, if_false, if_neg hal,
            readSlice, if_neg hb]

/-- Decoder dichotomy: with well-formed header words (`decArgWidths`
succeeds), the argument loop either succeeds — advancing the value-buffer
offset by exactly the sum of the per-argument header widths, an offset that
can legitimately end up past the buffer, since each typed-array view spans
only its `ToIndex`-truncated length while `vPt` advances by the raw header
byte count — or fails with the `RangeError` mapped to truncation. -/
theorem readArgs_cases (td : Bool) (pfx : String) (ws buf : List Nat) :
    ∀ (types : List GLType) (cPt vPt : Nat) (widths : List Nat),
    decArgWidths ws types cPt = some widths →
    (∃ vals cPt', readArgs td pfx ws buf types cPt vPt
        = .ok (vals, cPt', vPt + widths.sum))
    ∨ readArgs td pfx ws buf types cPt vPt = .error .truncated := by
  intro types
  induction types with
  | nil =>
      intro cPt vPt widths hw
      simp only [decArgWidths, Option.some.injEq] at hw
      subst hw
      left
      exact ⟨[], cPt, by simp [readArgs]⟩
  | cons t ts ih =>
      intro cPt vPt widths hw
      cases t with
      | arraybuffer =>
          simp only [decArgWidths] at hw
          cases h0 : ws[cPt]? with
          | none => rw [h0] at hw; simp at hw
          | some tnum =>
            rw [h0] at hw
            simp only [] at hw
            cases hk : getTypeOfArrayByNum tnum with
            | none => rw [hk] at hw; simp at hw
            | some k =>
              rw [hk] at hw
              simp only [] at hw
              cases h1 : ws[cPt + 1]? with
              | none => rw [h1] at hw; simp at hw
              | some bytes =>
                rw [h1] at hw
                simp only [] at hw
                cases hrest : decArgWidths ws ts (cPt + 2) with
                | none => rw [hrest] at hw; simp at hw
                | some rest =>
                  rw [hrest] at hw
                  simp only [Option.some.injEq] at hw
                  subst hw
                  simp only [readArgs]
                  rw [show wordAt ws cPt = .ok tnum by simp [wordAt, h0]]
                  simp only []
                  rw [hk]
                  rw [show wordAt ws (cPt + 1) = .ok bytes by simp [wordAt, h1]]
                  simp only []
                  by_cases hal : vPt % k.bpe ≠ 0
                  · right
                    rw [if_pos hal]
                  · rw [if_neg hal]
                    by_cases hsl : vPt + k.bpe * (bytes / k.bpe) ≤ buf.length
                    · rw [show readSlice buf vPt (k.bpe * (bytes / k.bpe))
                        = .ok ((buf.drop vPt).take (k.bpe * (bytes / k.bpe))) by
                          simp [readSlice, if_pos hsl]]
                      simp only []
                      rcases ih (cPt + 2) (vPt + bytes) rest hrest with
                        ⟨vals, cPt', hok⟩ | herr
                      · left
                        rw [List.sum_cons, ← Nat.add_assoc, hok]
                        simp only []
                        exact ⟨_, _, rfl⟩
                      · right
                        rw [herr]
                    · right
                      rw [show readSlice buf vPt (k.bpe * (bytes / k.bpe))
                        = .error .truncated by simp [readSlice, if_neg hsl]]
      | string =>
          simp only [decArgWidths] at hw
          cases h0 : ws[cPt]? with
          | none => rw [h0] at hw; simp at hw
          | some bytes =>
            rw [h0] at hw
            simp only [] at hw
            cases hrest : decArgWidths ws ts (cPt + 1) with
            | none => rw [hrest] at hw; simp at hw
            | some rest =>
              rw [hrest] at hw
              simp only [Option.some.injEq] at hw
              subst hw
              simp only [readArgs]
              rw [show wordAt ws cPt = .ok bytes by simp [wordAt, h0]]
              simp only []
              rcases readStringVal_cases td buf vPt bytes with ⟨units, hsv, -⟩ | herr0
              · rw [hsv]
                simp only []
                rcases ih (cPt + 1) (vPt + bytes) rest hrest with
                  ⟨vals, cPt', hok⟩ | herr
                · left
                  rw [List.sum_cons, ← Nat.add_assoc, hok]
                  simp only []
                  exact ⟨_, _, rfl⟩
                · right
                  rw [herr]
              · right
                rw [herr0]
      | image =>
          simp only [decArgWidths] at hw
          cases h0 : ws[cPt]? with
          | none => rw [h0] at hw; simp at hw
          | some w =>
            rw [h0] at hw
            simp only [] at hw
            cases h1 : ws[cPt + 1]? with
            | none => rw [h1] at hw; simp at hw
            | some h =>
              rw [h1] at hw
              simp only [] at hw
              cases hrest : decArgWidths ws ts (cPt + 2) with
              | none => rw [hrest] at hw; simp at hw
              | some rest =>
                rw [hrest] at hw
                simp only [Option.some.injEq] at hw
                subst hw
                simp only [readArgs]
                rw [show wordAt ws cPt = .ok w by simp [wordAt, h0]]
                simp only []
                rw [show wordAt ws (cPt + 1) = .ok h by simp [wordAt, h1]]
                simp only []
                by_cases hsl : vPt + w * h * 4 ≤ buf.length
                · rw [show readSlice buf vPt (w * h * 4)
                    = .ok ((buf.drop vPt).take (w * h * 4)) by
                      simp [readSlice, if_pos hsl]]
                  simp only []
                  rcases ih (cPt + 2) (vPt + w * h * 4) rest hrest with
                    ⟨vals, cPt', hok⟩ | herr
                  · left
                    rw [List.sum_cons, ← Nat.add_assoc, hok]
                    simp only []
                    exact ⟨_, _, rfl⟩
                  · right
                    rw [herr]
                · right
                  rw [show readSlice buf vPt (w * h * 4) = .error .truncated by
                    simp [readSlice, if_neg hsl]]
      | scalar k =>
          simp only [decArgWidths] at hw
          cases hrest : decArgWidths ws ts cPt with
          | none => rw [hrest] at hw; simp at hw
          | some rest =>
            rw [hrest] at hw
            simp only [Option.some.injEq] at hw
            subst hw
            simp only [readArgs]
            by_cases hsl : vPt + (GLType.scalar k).bytesCount ≤ buf.length
            · rw [show readSlice buf vPt (GLType.scalar k).bytesCount
                = .ok ((buf.drop vPt).take (GLType.scalar k).bytesCount) by
                  simp [readSlice, if_pos hsl]]
              simp only []
              rcases ih cPt (vPt + (GLType.scalar k).bytesCount) rest hrest with
                ⟨vals, cPt', hok⟩ | herr
              · left
                rw [List.sum_cons, ← Nat.add_assoc, hok]
                simp only []
                exact ⟨_, _, rfl⟩
              · right
                rw [herr]
            · right
              rw [show readSlice buf vPt (GLType.scalar k).bytesCount
                = .error .truncated by simp [readSlice, if_neg hsl]]
      | boolean =>
          simp only [decArgWidths] at hw
          cases hrest : decArgWidths ws ts cPt with
          | none => rw [hrest] at hw; simp at hw
          | some rest =>
            rw [hrest] at hw
            simp only [Option.some.injEq] at hw
            subst hw
            simp only [readArgs]
            by_cases hsl : vPt + GLType.boolean.bytesCount ≤ buf.length
            · rw [show readSlice buf vPt GLType.boolean.bytesCount
                = .ok ((buf.drop vPt).take GLType.boolean.bytesCount) by
                  simp [readSlice, if_pos hsl]]
              simp only []
              rcases ih cPt (vPt + GLType.boolean.bytesCount) rest hrest with
                ⟨vals, cPt', hok⟩ | herr
              · left
                rw [List.sum_cons, ← Nat.add_assoc, hok]
                simp only []
                exact ⟨_, _, rfl⟩
              · right
                rw [herr]
            · right
              rw [show readSlice buf vPt GLType.boolean.bytesCount
                = .error .truncated by simp [readSlice, if_neg hsl]]
      | ref =>
          simp only [decArgWidths] at hw
          cases hrest : decArgWidths ws ts cPt with
          | none => rw [hrest] at hw; simp at hw
          | some rest =>
            rw [hrest] at hw
            simp only [Option.some.injEq] at hw
            subst hw
            simp only [readArgs]
            by_cases hsl : vPt + GLType.ref.bytesCount ≤ buf.length
            · rw [show readSlice buf vPt GLType.ref.bytesCount
                = .ok ((buf.drop vPt).take GLType.ref.bytesCount) by
                  simp [readSlice, if_pos hsl]]
              simp only []
              rcases ih cPt (vPt + GLType.ref.bytesCount) rest hrest with
                ⟨vals, cPt', hok⟩ | herr
              · left
                rw [List.sum_cons, ← Nat.add_assoc, hok]
                simp only []
                exact ⟨_, _, rfl⟩
              · right
                rw [herr]
            · right
              rw [show readSlice buf vPt GLType.ref.bytesCount
                = .error .truncated by simp [readSlice, if_neg hsl]]
      | location =>
          simp only [decArgWidths] at hw
          cases hrest : decArgWidths ws ts cPt with
          | none => rw [hrest] at hw; simp at hw
          | some rest =>
            rw [hrest] at hw
            simp only [Option.some.injEq] at hw
            subst hw
            simp only [readArgs]
            by_cases hsl : vPt + GLType.location.bytesCount ≤ buf.length
            · rw [show readSlice buf vPt GLType.location.bytesCount
                = .ok ((buf.drop vPt).take GLType.location.bytesCount) by
                  simp [readSlice, if_pos hsl]]
              simp only []
              rcases ih cPt (vPt + GLType.location.bytesCount) rest hrest with
                ⟨vals, cPt', hok⟩ | herr
              · left
                rw [List.sum_cons, ← Nat.add_assoc, hok]
                simp only []
                exact ⟨_, _, rfl⟩
              · right
                rw [herr]
            · right
              rw [show readSlice buf vPt GLType.location.bytesCount
                = .error .truncated by simp [readSlice, if_neg hsl]]

def bindBufferDesc : CommandDesc := ⟨10, "bindBuffer", [.scalar .u32, .ref], none⟩

def createBufferDesc : CommandDesc := ⟨11, "createBuffer", [], some (.single .ref)⟩

def texImage2DDesc : CommandDesc := ⟨12, "texImage2D", [.image], none⟩

def shaderSourceDesc : CommandDesc := ⟨13, "shaderSource", [.string], none⟩

def clearDesc : CommandDesc := ⟨14, "clear", [], none⟩

def uniform1iDesc : CommandDesc := ⟨15, "uniform1i", [.location, .scalar .i32], none⟩

def bufferDataDesc : CommandDesc :=
  ⟨16, "bufferData", [.scalar .u32, .arraybuffer, .scalar .u32], none⟩

def testRegistry : Registry :=
  ⟨[bindBufferDesc, createBufferDesc, texImage2DDesc, shaderSourceDesc,
    clearDesc, uniform1iDesc, bufferDataDesc], ["createBuffer"]⟩

/-! ## The claims -/

/-- C6: after `reset()` the command list is empty and a reset Writer or
Player is *identical, as a state, to a freshly constructed instance* — every
operation is a function of that instance state (plus the explicit process
world), so any subsequent sequence of `addCommand`/`getBuffer` or
`addBuffer`/`playback` behaves as on a fresh instance.  (The process-global
`uid` counter and the ids stamped on live objects are world state shared
with a fresh instance alike, not instance state.) -/
theorem claim_C6_reset_fresh (w : GLBufferWriter) (p : GLBufferPlayer) :
    w.reset = GLBufferWriter.init w.refPrefix w.debug
    ∧ p.reset = GLBufferPlayer.init
    ∧ p.reset.getCommands = [] := ⟨rfl, rfl, rfl⟩

/-- C10: the decoded command list is not consumed by `playback` — but the
claim's premise of a *successful* playback over records is unreachable:
`_parse` pushes the inner `{name, types, args, ref}` objects, while
`playback` reads `c.command.ref`, so on any nonempty list the first record
access throws a `TypeError` before anything executes.  Evaluated here at a
player holding one decoded record: `playback` fails and the list (as
`getCommands` returns it) is untouched. -/
theorem claim_C10_playback_crash :
    (GLBufferPlayer.mk [⟨"clear", [], [], .zero⟩] []).playback (fun _ _ => 0) none
      = .error .typeErrorUndefined
    ∧ (GLBufferPlayer.mk [⟨"clear", [], [], .zero⟩] []).getCommands
      = [⟨"clear", [], [], .zero⟩] := ⟨rfl, rfl⟩

/-- C8: `addCommand` with a name the registry does not know is dropped:
the call returns with the writer (and the world) exactly unchanged. -/
theorem claim_C8_unknown_name (te : Bool) (reg : Registry) (g : World)
    (w : GLBufferWriter) (name : String) (args : List GLValue)
    (h : reg.byName name = none) :
    GLBufferWriter.addCommand te reg g w name args = .ok (w, g) := by
  rw [GLBufferWriter.addCommand, h]

theorem claim_C8_witness :
    GLBufferWriter.addCommand true testRegistry World.init
      (GLBufferWriter.init "" false) "enable" [.num 1] =
      .ok (GLBufferWriter.init "" false, World.init) :=
  claim_C8_unknown_name true testRegistry World.init
    (GLBufferWriter.init "" false) "enable" [.num 1] (by decide)

/-- C7: with a known name, an argument count different from
`argTypes.length` (+1 when a return type is declared) fails with the
`ArgumentCountError` and nothing is committed (the thrown error leaves the
writer untouched); a matching count commits the command: the command code
(plus header words) is appended to the command stream and one value buffer
is pushed. -/
theorem claim_C7_argument_count (te : Bool) (reg : Registry) (g : World)
    (w : GLBufferWriter) (name : String) (args : List GLValue)
    (ct : CommandDesc) (h : reg.byName name = some ct) :
    (ct.argTypes.length + (if ct.returnType.isSome then 1 else 0) ≠ args.length →
      GLBufferWriter.addCommand te reg g w name args = .error .argumentCount)
    ∧ (ct.argTypes.length + (if ct.returnType.isSome then 1 else 0) = args.length →
      ∃ hdr buffer g2 rm,
        GLBufferWriter.addCommand te reg g w name args
          = .ok ({ w with
                    commands := w.commands ++ ct.num :: hdr,
                    valueBuffers := w.valueBuffers ++ [buffer],
                    refMap := rm }, g2)) := by
  constructor
  · intro hne
    rw [GLBufferWriter.addCommand, h]
    simp only []
    rw [if_pos hne]
  · intro heq
    rw [GLBufferWriter.addCommand, h]
    simp only []
    rw [if_neg (not_ne_iff.mpr heq)]
    rw [saveCommand]
    exact ⟨_, _, _, _, rfl⟩

theorem claim_C7_witness :
    GLBufferWriter.addCommand true testRegistry World.init
      (GLBufferWriter.init "" false) "bindBuffer" [.num 1]
      = .error .argumentCount :=
  (claim_C7_argument_count true testRegistry World.init
    (GLBufferWriter.init "" false) "bindBuffer" [.num 1]
    bindBufferDesc (by decide)).1 (by decide)

/-- C9: a command whose descriptor declares no arguments and no return type
encodes to exactly one word — the command code — appended to the command
stream, with a zero-length value buffer pushed. -/
theorem claim_C9_zero_arg (te : Bool) (reg : Registry) (g : World)
    (w : GLBufferWriter) (name : String) (ct : CommandDesc)
    (h1 : reg.byName name = some ct) (h2 : ct.argTypes = [])
    (h3 : ct.returnType = none) :
    GLBufferWriter.addCommand te reg g w name []
      = .ok ({ w with
                commands := w.commands ++ [ct.num],
                valueBuffers := w.valueBuffers ++ [[]] }, g) := by
  rw [GLBufferWriter.addCommand, h1]
  simp only []
  rw [if_neg (not_ne_iff.mpr (by simp [h2, h3]))]
  rw [saveCommand]
  have htag : refCreatorTag reg g w.refMap name (List.getLast? []) = (g, w.refMap) := by
    unfold refCreatorTag
    cases hcr : reg.isRefCreator name <;> simp
  rw [htag]
  simp only [getBufferTypes_fst, h2, h3]
  rfl

theorem claim_C9_witness :
    GLBufferWriter.addCommand true testRegistry World.init
      (GLBufferWriter.init "" false) "clear" []
      = .ok ({ GLBufferWriter.init "" false with
                commands := (GLBufferWriter.init "" false).commands ++ [clearDesc.num],
                valueBuffers := (GLBufferWriter.init "" false).valueBuffers ++ [[]] },
             World.init) :=
  claim_C9_zero_arg true testRegistry World.init (GLBufferWriter.init "" false)
    "clear" clearDesc (by decide) rfl rfl

/-- C1, evaluated at the failing input: encoding `texImage2D` with a 1×1
`ImageData` whose pixel bytes are `[1,2,3,4]` and decoding the wire output
yields a record with the right name, but the pixel-buffer argument comes
back zero-filled, not equal to the original.  The slip is in `_writeBuffer`:
the write pass calls `arr.set(value)` on the `ImageData` *object* (which has
no `length` property, so nothing is copied) instead of on `value.data`, and
the freshly allocated zero-filled buffer is shipped; every non-image
argument kind does round-trip (see `addBuffer_addCommand`). -/
theorem claim_C1_image_not_reproduced :
    ∃ w' : GLBufferWriter,
      GLBufferWriter.addCommand true testRegistry World.init
        (GLBufferWriter.init "" false) "texImage2D" [.img 1 1 [1, 2, 3, 4]]
        = .ok (w', World.init)
      ∧ (GLBufferPlayer.addBuffer true testRegistry GLBufferPlayer.init
          w'.getBuffer).1.getCommands
        = [{ name := "texImage2D", types := [.image],
             args := [.img 1 1 [0, 0, 0, 0]], ref := .zero }]
      ∧ PlayVal.img 1 1 [0, 0, 0, 0] ≠ PlayVal.img 1 1 [1, 2, 3, 4] :=
  ⟨⟨"", false, [12, 1, 1], [[0, 0, 0, 0]], []⟩, by decide, by decide, by decide⟩

/-- C3, refuted as stated: `bindBuffer` is not a `GLrefCreators` command, so
passing an object that has no id yet as its `Ref` argument assigns nothing:
the write pass serializes `value[GL_REF_KEY]` = `undefined`, which
`setUint32` stores as 0, and the world (id counter, stamped keys) is
unchanged — no fresh id is allocated at the argument's first occurrence.
(`34962` is `GL_ARRAY_BUFFER`; its big-endian bytes are `[0,0,136,146]`,
and the trailing four zero bytes are the serialized reference field.) -/
theorem claim_C3_counterexample :
    GLBufferWriter.addCommand true testRegistry World.init
      (GLBufferWriter.init "" false) "bindBuffer" [.num 34962, .obj 7]
      = .ok ({ refPrefix := "", debug := false, commands := [10],
               valueBuffers := [[0, 0, 136, 146, 0, 0, 0, 0]], refMap := [] },
             World.init)
    ∧ World.init.uid = 1 ∧ World.init.keyOf 7 = none := ⟨by decide, rfl, rfl⟩

/-- C4, refuted as stated ("regardless of which scheme produced the
bytes"): the decoder picks its scheme from its *own* environment, not from
the header.  Encoding the one-character string `"A"` with the
2-bytes-per-character fallback stores bytes `[65, 0]` with header word 2;
a decoder whose environment has the UTF-8 `TextDecoder` decodes those two
bytes as the two-character string `"A\u0000"`, not the original. -/
theorem claim_C4_counterexample :
    ∃ w' : GLBufferWriter,
      GLBufferWriter.addCommand false testRegistry World.init
        (GLBufferWriter.init "" false) "shaderSource" [.str [65]]
        = .ok (w', World.init)
      ∧ (GLBufferPlayer.addBuffer true testRegistry GLBufferPlayer.init
          w'.getBuffer).1.getCommands
        = [{ name := "shaderSource", types := [.string],
             args := [.str [65, 0]], ref := .zero }]
      ∧ PlayVal.str [65, 0] ≠ PlayVal.str [65] :=
  ⟨⟨"", false, [13, 2], [[65, 0]], []⟩, by decide, by decide, by decide⟩

/-- C2: the central buffer-symmetry invariant.  For every command argument
list and valid arguments, the per-position byte widths the decoder computes
from the header words in the command-code stream (`decArgWidths`, exactly
the `bytesCount` values by which `_readCommand` advances `vPt`) are defined
and equal, position by position, to the widths the encoder computed in its
layout pass from the concrete arguments (`encArgWidths`); consequently a
successful decode of those arguments advances the value-buffer offset by
exactly their sum — encoder and decoder walk the value buffer in lockstep. -/
theorem claim_C2_lockstep (te : Bool) (g : World) (types : List GLType)
    (args : List GLValue) (h : validArgs te g types args = true)
    (wsPre wsSuf : List Nat) :
    decArgWidths
        (wsPre ++ (writeArgs te g types args (layoutArgs te types args).1).2 ++ wsSuf)
        types wsPre.length
      = some (encArgWidths te types args)
    ∧ ∀ (pfx : String) (buf : List Nat) (vals : List PlayVal) (cPt' vPt' : Nat),
        readArgs te pfx
          (wsPre ++ (writeArgs te g types args (layoutArgs te types args).1).2 ++ wsSuf)
          buf types wsPre.length 0 = .ok (vals, cPt', vPt') →
        vPt' = (encArgWidths te types args).sum := by
  have hw := decArgWidths_writeArgs te g types args h wsPre wsSuf
  refine ⟨hw, ?_⟩
  intro pfx buf vals cPt' vPt' hok
  rcases readArgs_cases te pfx _ buf types wsPre.length 0 _ hw with
    ⟨vals2, cPt2, hok2⟩ | herr
  · rw [hok] at hok2
    injection hok2 with h'
    simp only [Prod.mk.injEq] at h'
    omega
  · rw [hok] at herr
    exact absurd herr (by simp)

theorem claim_C2_witness :
    decArgWidths
        (([] : List Nat) ++ (writeArgs true World.init
          [.scalar .u32, .arraybuffer] [.num 5, .arr .af32 [1, 2]]
          (layoutArgs true [.scalar .u32, .arraybuffer]
            [.num 5, .arr .af32 [1, 2]]).1).2 ++ ([] : List Nat))
        [.scalar .u32, .arraybuffer] ([] : List Nat).length
      = some (encArgWidths true [.scalar .u32, .arraybuffer]
          [.num 5, .arr .af32 [1, 2]]) :=
  (claim_C2_lockstep true World.init [.scalar .u32, .arraybuffer]
    [.num 5, .arr .af32 [1, 2]] (by decide) [] []).1

/-- C3 amended: fresh ids are assigned only when a `GLrefCreators` command
is added, to the trailing created object(s) lacking one; an argument of type
`Ref` serializes the object's *already-assigned* id (0 when it has none —
see the counterexample), and a second `addCommand` passing the same object
as a `Ref` argument serializes the same id with no new allocation. -/
theorem claim_C3_amended_ref_ids (te : Bool) (reg : Registry) (g : World)
    (w : GLBufferWriter) (name : String) (ct : CommandDesc) (e : Int) (tok : Nat)
    (key : Nat) (cname : String) (cct : CommandDesc) (tok2 : Nat)
    (h1 : reg.byName name = some ct)
    (h2 : ct.argTypes = [.scalar .u32, .ref]) (h3 : ct.returnType = none)
    (h9 : reg.isRefCreator name = false)
    (hkey : g.keyOf tok = some key)
    (h4 : reg.byName cname = some cct) (h5 : cct.argTypes = [])
    (h6 : cct.returnType = some (.single .ref))
    (h7 : reg.isRefCreator cname = true) (h8 : g.keyOf tok2 = none) :
    (∃ w1 w2,
      GLBufferWriter.addCommand te reg g w name [.num e, .obj tok] = .ok (w1, g)
      ∧ w1.valueBuffers = w.valueBuffers ++
          [encodeScalarBE .u32 e ++ encodeScalarBE .u32 (key : Int)]
      ∧ GLBufferWriter.addCommand te reg g w1 name [.num e, .obj tok] = .ok (w2, g)
      ∧ w2.valueBuffers = w1.valueBuffers ++
          [encodeScalarBE .u32 e ++ encodeScalarBE .u32 (key : Int)])
    ∧ (∃ w3 g3,
      GLBufferWriter.addCommand te reg g w cname [.obj tok2] = .ok (w3, g3)
      ∧ g3.keyOf tok2 = some g.uid ∧ g3.uid = g.uid + 1
      ∧ w3.valueBuffers = w.valueBuffers ++ [encodeScalarBE .u32 (g.uid : Int)]) := by
  have hbind : ∀ (w0 : GLBufferWriter),
      GLBufferWriter.addCommand te reg g w0 name [.num e, .obj tok]
      = .ok ({ w0 with
                commands := w0.commands ++ ct.num :: [],
                valueBuffers := w0.valueBuffers ++
                  [encodeScalarBE .u32 e ++ (encodeScalarBE .u32 (key : Int) ++ [])],
                refMap := w0.refMap }, g) := by
    intro w0
    rw [GLBufferWriter.addCommand, h1]
    simp only []
    rw [if_neg (not_ne_iff.mpr (by simp [h2, h3]))]
    rw [saveCommand]
    have htag : refCreatorTag reg g w0.refMap name
        (List.getLast? [GLValue.num e, GLValue.obj tok]) = (g, w0.refMap) := by
      unfold refCreatorTag
      rw [h9]
      simp
    rw [htag]
    simp only [getBufferTypes_fst, h2, h3]
    simp only [layoutArgs, layoutArg, writeArgs, writeArg, writeReturnSlot,
      GLType.fixedKind, List.nil_append, List.append_nil, hkey, Option.getD_some]
  constructor
  · exact ⟨_, _, hbind w, by simp, hbind _, by simp⟩
  · rw [GLBufferWriter.addCommand, h4]
    simp only []
    rw [if_neg (not_ne_iff.mpr (by simp [h5, h6]))]
    rw [saveCommand]
    have htag : refCreatorTag reg g w.refMap cname
        (List.getLast? [GLValue.obj tok2])
        = (⟨(tok2, g.uid) :: g.keys, g.uid + 1⟩, (g.uid, tok2) :: w.refMap) := by
      unfold refCreatorTag
      rw [h7]
      simp only [List.getLast?_singleton]
      unfold tagObject
      rw [h8]
      simp
    rw [htag]
    simp only [getBufferTypes_fst, h5, h6]
    refine ⟨_, _, rfl, ?_, rfl, ?_⟩
    · unfold World.keyOf
      simp
    · have hk2 : World.keyOf ⟨(tok2, g.uid) :: g.keys, g.uid + 1⟩ tok2 = some g.uid := by
        unfold World.keyOf
        simp
      simp only [layoutArgs, writeArgs, writeReturnSlot, List.getLast?_singleton,
        List.nil_append, hk2, Option.getD_some, GLType.fixedKind]

/-- C4 amended: when the decoder's environment also lacks the preferred
UTF-8 codec (both sides on the 2-bytes-per-character scheme), the encoder
records the byte length `2 * length` as the single header word and the
decoder reconstructs the original string exactly from it. -/
theorem claim_C4_amended_fallback (reg : Registry) (g : World)
    (w : GLBufferWriter) (name : String) (ct : CommandDesc) (units : List Nat)
    (p : GLBufferPlayer)
    (h1 : reg.byName name = some ct) (h2 : reg.byNum ct.num = some ct)
    (h3 : ct.argTypes = [.string]) (h4 : ct.returnType = none)
    (h5 : ∀ u ∈ units, u < 0x10000)
    (h7 : w.commands = []) (h8 : w.valueBuffers = []) :
    ∃ (w' : GLBufferWriter) (g' : World) (rec : CommandRecord),
      GLBufferWriter.addCommand false reg g w name [.str units] = .ok (w', g')
      ∧ w'.commands = [ct.num, units.length * 2]
      ∧ GLBufferPlayer.addBuffer false reg p w'.getBuffer
          = ({ p with commands := p.commands ++ [rec] }, none)
      ∧ rec.name = ct.name ∧ rec.args = [.str units] := by
  have htag : refCreatorTag reg g w.refMap name
      (List.getLast? [GLValue.str units]) = (g, w.refMap) := by
    unfold refCreatorTag
    cases reg.isRefCreator name <;> simp
  have hadd : GLBufferWriter.addCommand false reg g w name [.str units]
      = .ok ({ w with
                commands := w.commands ++ ct.num ::
                  (writeArgs false g ct.argTypes [.str units]
                    (layoutArgs false ct.argTypes [.str units]).1).2,
                valueBuffers := w.valueBuffers ++
                  [(writeArgs false g ct.argTypes [.str units]
                      (layoutArgs false ct.argTypes [.str units]).1).1
                    ++ writeReturnSlot g ct.returnType
                        (List.getLast? [GLValue.str units])],
                refMap := w.refMap }, g) := by
    rw [GLBufferWriter.addCommand, h1]
    simp only []
    rw [if_neg (not_ne_iff.mpr (by simp [h3, h4]))]
    rw [saveCommand]
    rw [htag]
    simp only [getBufferTypes_fst]
  have hvalid : validArgs false g ct.argTypes [.str units] = true := by
    rw [h3]
    simp only [validArgs, validArg, Bool.and_eq_true, List.all_eq_true]
    refine ⟨?_, trivial⟩
    intro u hu
    simp [h5 u hu]
  obtain ⟨rec, hb, hname, htypes, hargs⟩ :=
    addBuffer_addCommand false reg g w name [.str units] ct _ g p h1 h2 hadd hvalid
      (by rw [h3]; rfl)
      (by intro t ht; rw [h4] at ht; exact absurd ht (by simp)) h7 h8
  refine ⟨_, g, rec, hadd, ?_, hb, hname, ?_⟩
  · simp only [h7, h3, List.nil_append]
    simp [layoutArgs, layoutArg, writeArgs, writeArg]
  · rw [hargs, h3]
    rfl

theorem claim_C3_amended_witness :
    (∃ w1 w2,
      GLBufferWriter.addCommand true testRegistry ⟨[(7, 1)], 2⟩
        (GLBufferWriter.init "" false) "bindBuffer" [.num 34962, .obj 7]
        = .ok (w1, ⟨[(7, 1)], 2⟩)
      ∧ w1.valueBuffers = (GLBufferWriter.init "" false).valueBuffers ++
          [encodeScalarBE .u32 34962 ++ encodeScalarBE .u32 ((1 : Nat) : Int)]
      ∧ GLBufferWriter.addCommand true testRegistry ⟨[(7, 1)], 2⟩ w1 "bindBuffer"
          [.num 34962, .obj 7] = .ok (w2, ⟨[(7, 1)], 2⟩)
      ∧ w2.valueBuffers = w1.valueBuffers ++
          [encodeScalarBE .u32 34962 ++ encodeScalarBE .u32 ((1 : Nat) : Int)])
    ∧ (∃ w3 g3,
      GLBufferWriter.addCommand true testRegistry ⟨[(7, 1)], 2⟩
        (GLBufferWriter.init "" false) "createBuffer" [.obj 9] = .ok (w3, g3)
      ∧ g3.keyOf 9 = some (⟨[(7, 1)], 2⟩ : World).uid
      ∧ g3.uid = (⟨[(7, 1)], 2⟩ : World).uid + 1
      ∧ w3.valueBuffers = (GLBufferWriter.init "" false).valueBuffers ++
          [encodeScalarBE .u32 (((⟨[(7, 1)], 2⟩ : World).uid : Nat) : Int)]) :=
  claim_C3_amended_ref_ids true testRegistry ⟨[(7, 1)], 2⟩
    (GLBufferWriter.init "" false) "bindBuffer" bindBufferDesc 34962 7 1
    "createBuffer" createBufferDesc 9 (by decide) rfl rfl (by decide) (by decide)
    (by decide) rfl rfl (by decide) (by decide)

theorem claim_C4_amended_witness :
    ∃ (w' : GLBufferWriter) (g' : World) (rec : CommandRecord),
      GLBufferWriter.addCommand false testRegistry World.init
        (GLBufferWriter.init "" false) "shaderSource" [.str [72, 1000]]
        = .ok (w', g')
      ∧ w'.commands = [shaderSourceDesc.num, ([72, 1000] : List Nat).length * 2]
      ∧ GLBufferPlayer.addBuffer false testRegistry GLBufferPlayer.init w'.getBuffer
          = ({ GLBufferPlayer.init with
                commands := GLBufferPlayer.init.commands ++ [rec] }, none)
      ∧ rec.name = shaderSourceDesc.name ∧ rec.args = [.str [72, 1000]] :=
  claim_C4_amended_fallback testRegistry World.init (GLBufferWriter.init "" false)
    "shaderSource" shaderSourceDesc [72, 1000] GLBufferPlayer.init
    (by decide) (by decide) rfl rfl (by decide) rfl rfl

end GLBuffer
